import Mathlib

/-!
# Verification of the `@gibme/ssdp` SSDP library

Shallow embedding of the library's message codec (`src/ssdp.ts`), the
Advertiser state machine (`src/advertiser.ts`, provided unnamed) and the
Browser state machine (`src/browser.ts`).

JavaScript strings are modelled as `List Char`; the JS string operations
used by the source (`split`, `trim` with the full JS whitespace class,
`toUpperCase`, `toLowerCase`, `Array.join`, `startsWith`) are embedded as
executable functions below.  The WHATWG `Headers` container used by the
source is embedded as an association list whose keys are normalized to
lower case on write and on lookup and whose values are stripped of HTTP
whitespace on write; the container's `TypeError` on a non-token name or a
NUL/LF/CR-bearing value is modelled explicitly (as `Except.error`) on the
paths where a claim depends on it.  The `localeCompare` collation used by
`toString` is modelled by the CLDR root primary order on the header-name
alphabet (see `collRankN`).  Side effects (the socket, the timer,
event-emitter callbacks) are made explicit: every operation returns the
messages it sends and the events it emits.
-/

namespace SSDPModel

/-- A JavaScript string, modelled as a list of characters. -/
abbrev Str := List Char

/-- Converts a Lean string literal to the model's string type. -/
def str (s : String) : Str := s.data

/-- Decidable equality for `Except`, so that thrown-vs-returned outcomes can
be computed on concrete inputs. -/
instance {ε α : Type} [DecidableEq ε] [DecidableEq α] : DecidableEq (Except ε α)
  | .ok a, .ok b =>
    match decEq a b with
    | isTrue h => isTrue (by rw [h])
    | isFalse h => isFalse (fun hh => h (by cases hh; rfl))
  | .ok _, .error _ => isFalse (fun hh => by cases hh)
  | .error _, .ok _ => isFalse (fun hh => by cases hh)
  | .error a, .error b =>
    match decEq a b with
    | isTrue h => isTrue (by rw [h])
    | isFalse h => isFalse (fun hh => h (by cases hh; rfl))

/-- The HTTP whitespace characters (tab, LF, CR, space): the class the WHATWG
`Headers` container strips from the ends of a value when normalizing it on
write.  This is strictly smaller than the class JavaScript `trim` removes. -/
def httpWsChar (c : Char) : Bool :=
  c.toNat == 9 || c.toNat == 10 || c.toNat == 13 || c.toNat == 32

/-- Whether a code point is JavaScript whitespace, the class
`String.prototype.trim` removes: tab, LF, VT, FF, CR, space, NBSP, the Ogham
space mark, the en-quad through hair-space range, the line and paragraph
separators, the narrow no-break space, the medium mathematical space, the
ideographic space, and ZWNBSP. -/
def wsCharN (n : Nat) : Bool :=
  n == 9 || n == 10 || n == 11 || n == 12 || n == 13 || n == 32 || n == 160 ||
    n == 5760 || (8192 ≤ n && n ≤ 8202) || n == 8232 || n == 8233 || n == 8239 ||
    n == 8287 || n == 12288 || n == 65279

/-- The whitespace characters `String.prototype.trim` removes from both ends
of a string. -/
def wsChar (c : Char) : Bool := wsCharN c.toNat

/-- `s.toLowerCase()` for ASCII text. -/
def lowerStr (s : Str) : Str := s.map Char.toLower

/-- `s.toUpperCase()` for ASCII text. -/
def upperStr (s : Str) : Str := s.map Char.toUpper

/-- Removes trailing whitespace. -/
def dropEndWS (s : Str) : Str := (s.reverse.dropWhile wsChar).reverse

/-- `s.trim()`: removes leading and trailing whitespace. -/
def trim (s : Str) : Str := dropEndWS (s.dropWhile wsChar)

/-- Removes trailing HTTP whitespace. -/
def dropEndHW (s : Str) : Str := (s.reverse.dropWhile httpWsChar).reverse

/-- WHATWG header-value normalization: strip leading and trailing HTTP
whitespace, which is what `Headers.set` applies to a value before storing
it. -/
def httpTrim (s : Str) : Str := dropEndHW (s.dropWhile httpWsChar)

/-- `s.split(sep)` for a one-character separator: JavaScript `String.prototype.split`.
Always returns a non-empty list; `"".split(c) = [""]`. -/
def splitOnC (sep : Char) : Str → List Str
  | [] => [[]]
  | c :: rest =>
    if c = sep then [] :: splitOnC sep rest
    else
      match splitOnC sep rest with
      | [] => [[c]]
      | r :: rs => (c :: r) :: rs

/-- `parts.join(sep)`: JavaScript `Array.prototype.join`. -/
def joinSep (sep : Str) : List Str → Str
  | [] => []
  | [x] => x
  | x :: y :: rest => x ++ sep ++ joinSep sep (y :: rest)

/-- `s.startsWith(pre)`. -/
def strStartsWith (pre s : Str) : Bool := s.take pre.length == pre

/-- Whether a code point is an HTTP token character (RFC 9110 `tchar`:
letters, digits, and the fifteen token punctuation marks): the only
characters the WHATWG `Headers` container permits in a header name. -/
def tokenCharN (n : Nat) : Bool :=
  (48 ≤ n && n ≤ 57) || (65 ≤ n && n ≤ 90) || (97 ≤ n && n ≤ 122) ||
    n == 33 || n == 35 || n == 36 || n == 37 || n == 38 || n == 39 || n == 42 ||
    n == 43 || n == 45 || n == 46 || n == 94 || n == 95 || n == 96 || n == 124 ||
    n == 126

/-- Whether a character is an HTTP token character. -/
def tokenChar (c : Char) : Bool := tokenCharN c.toNat

/-- WHATWG header-name validity: a non-empty token.  `Headers.set` throws a
`TypeError` on any other name. -/
def validName (k : Str) : Bool := !k.isEmpty && k.all tokenChar

/-- WHATWG header-value validity (checked after normalization): no NUL, LF
or CR anywhere in the value.  `Headers.set` throws a `TypeError` otherwise. -/
def validValue (v : Str) : Bool :=
  v.all (fun c => !(c.toNat == 0 || c.toNat == 10 || c.toNat == 13))

/-- A lower-case ASCII letter or digit.  On names drawn from this alphabet
the host collation used by `localeCompare` agrees with code-unit order. -/
def alnumLower (c : Char) : Bool :=
  (48 ≤ c.toNat && c.toNat ≤ 57) || (97 ≤ c.toNat && c.toNat ≤ 122)

/-- Modelled from the spec: the primary-weight order of the CLDR root
collation, which is what `localeCompare` applies, restricted to the
header-name alphabet.  ASCII punctuation sorts (DUCET order) as
low line, hyphen-minus, comma, semicolon, colon, exclamation, question,
full stop, apostrophe, quote, parentheses, brackets, braces, commercial at,
asterisk, solidus, reverse solidus, ampersand, number sign, percent, grave,
circumflex, plus, less-than, equals, greater-than, vertical line, tilde,
dollar; then digits; then letters (an upper-case letter shares the primary
weight of its lower-case form — case is a lower-level difference, and the
names being sorted are already lower-cased by the container).  Code points
outside this alphabet cannot appear in a validated header name; they fall
back to code-point order after everything else. -/
def collRankN (n : Nat) : Nat :=
  if 48 ≤ n ∧ n ≤ 57 then 32 + (n - 48)
  else if 97 ≤ n ∧ n ≤ 122 then 42 + (n - 97)
  else if 65 ≤ n ∧ n ≤ 90 then 42 + (n - 65)
  else if n = 95 then 0
  else if n = 45 then 1
  else if n = 44 then 2
  else if n = 59 then 3
  else if n = 58 then 4
  else if n = 33 then 5
  else if n = 63 then 6
  else if n = 46 then 7
  else if n = 39 then 8
  else if n = 34 then 9
  else if n = 40 then 10
  else if n = 41 then 11
  else if n = 91 then 12
  else if n = 93 then 13
  else if n = 123 then 14
  else if n = 125 then 15
  else if n = 64 then 16
  else if n = 42 then 17
  else if n = 47 then 18
  else if n = 92 then 19
  else if n = 38 then 20
  else if n = 35 then 21
  else if n = 37 then 22
  else if n = 96 then 23
  else if n = 94 then 24
  else if n = 43 then 25
  else if n = 60 then 26
  else if n = 61 then 27
  else if n = 62 then 28
  else if n = 124 then 29
  else if n = 126 then 30
  else if n = 36 then 31
  else 100 + n

/-- The per-character sort key standing in for the host collation: the
primary weight first, the code point as a tiebreak (the tiebreak makes the
induced order total without relying on the weight table being injective). -/
def collKey (c : Char) : Nat := collRankN c.toNat * 2097152 + c.toNat

/-- Lexicographic string order induced by a per-character sort key. -/
def lexLeBy (key : Char → Nat) : Str → Str → Bool
  | [], _ => true
  | _ :: _, [] => false
  | a :: as, b :: bs =>
    if key a < key b then true
    else if key b < key a then false
    else lexLeBy key as bs

/-- Code-unit lexicographic order on strings: the order in which the WHATWG
`Headers` container iterates its (lower-cased) names. -/
def lexLe : Str → Str → Bool := lexLeBy Char.toNat

/-- The modelled `localeCompare` order (see `collRankN`). -/
def collLe : Str → Str → Bool := lexLeBy collKey

/-- The "sorted by key" relation between adjacent header entries, for a
given string order. -/
def keyLeBy (le : Str → Str → Bool) (x y : Str × Str) : Prop := le x.1 y.1 = true

/-- Sorted-by-code-unit-order between adjacent entries. -/
def keyLe : Str × Str → Str × Str → Prop := keyLeBy lexLe

/-- Inserts an entry into a list sorted by `le` on the keys. -/
def insSortInsert (le : Str → Str → Bool) (e : Str × Str) :
    List (Str × Str) → List (Str × Str)
  | [] => [e]
  | f :: rest => if le e.1 f.1 then e :: f :: rest else f :: insSortInsert le e rest

/-- Insertion sort of header entries by `le` on the keys (stable, as
`Array.prototype.sort` is). -/
def insSortBy (le : Str → Str → Bool) : List (Str × Str) → List (Str × Str)
  | [] => []
  | e :: rest => insSortInsert le e (insSortBy le rest)

/-- The sorted iteration order of the WHATWG `Headers` container:
entries sorted by name in code-unit order. -/
def sortByKey : List (Str × Str) → List (Str × Str) := insSortBy lexLe

/-- The `headers.sort((a, b) => a[0].localeCompare(b[0]))` step of
`Payload.toString`: entries sorted by name in the host collation order. -/
def sortByColl : List (Str × Str) → List (Str × Str) := insSortBy collLe

/-! ## The `Headers` container -/

/-- The WHATWG `Headers` container: an association list from normalized
(lower-case) header name to value. -/
structure Headers where
  entries : List (Str × Str)
deriving DecidableEq

/-- `new Headers()`. -/
def Headers.empty : Headers := ⟨[]⟩

/-- Replaces the value of key `k` in place, or appends the pair. -/
def setEntries (k v : Str) : List (Str × Str) → List (Str × Str)
  | [] => [(k, v)]
  | e :: rest => if e.1 = k then (k, v) :: rest else e :: setEntries k v rest

/-- `headers.set(name, value)` on the successful path: the name is
normalized to lower case and the value is stripped of leading/trailing HTTP
whitespace.  The container additionally throws a `TypeError` when the name
is not a non-empty token or the normalized value still contains NUL, LF or
CR (see `validName` / `validValue`); the fallible wrappers below make that
explicit where a claim depends on it. -/
def Headers.set (h : Headers) (name value : Str) : Headers :=
  ⟨setEntries (lowerStr name) (httpTrim value) h.entries⟩

/-- `headers.get(name)` (no `append` is ever used by the library, so no
value combining occurs). -/
def Headers.get (h : Headers) (name : Str) : Option Str :=
  (h.entries.find? (fun e => e.1 == lowerStr name)).map (·.2)

/-- `headers.has(name)`. -/
def Headers.has (h : Headers) (name : Str) : Bool :=
  h.entries.any (fun e => e.1 == lowerStr name)

/-- `headers.delete(name)`. -/
def Headers.delete (h : Headers) (name : Str) : Headers :=
  ⟨h.entries.filter (fun e => !(e.1 == lowerStr name))⟩

/-- The entries in the order `headers.forEach` visits them
(sorted lexicographically by name). -/
def Headers.sorted (h : Headers) : List (Str × Str) := sortByKey h.entries

/-! ## The message payloads (`SSDP.Search` / `SSDP.Notification` / `SSDP.Reply`) -/

/-- The `method` field of a payload: `'m-search' | 'notify' | 'reply'`. -/
inductive Method where
  | msearch
  | notify
  | reply
deriving DecidableEq

/-- An SSDP payload.  `host`/`port` are the extra fields of `SSDP.Search`
(the address the search is addressed to / was received from); they are
unused (empty) for notifications and replies. -/
structure Payload where
  method : Method
  isReply : Bool
  host : Str
  port : Nat
  headers : Headers
deriving DecidableEq

/-- `new SSDP.Search(host, port)`. -/
def mkSearch (host : Str) (port : Nat) : Payload :=
  ⟨.msearch, false, host, port, .empty⟩

/-- `new SSDP.Notification()`. -/
def mkNotification : Payload := ⟨.notify, false, [], 0, .empty⟩

/-- `new SSDP.Reply()`. -/
def mkReply : Payload := ⟨.reply, true, [], 0, .empty⟩

/-- `payload.setHeader(key, value)`: trims and upper-cases the key, trims
the value, and stores the pair in the header set. -/
def Payload.setHeader (p : Payload) (k v : Str) : Payload :=
  { p with headers := p.headers.set (upperStr (trim k)) (trim v) }

/-- `payload.getHeader(key)`: `this._headers.get(key.trim().toUpperCase()) || undefined`
(an empty stored value is reported as absent). -/
def Payload.getHeader (p : Payload) (k : Str) : Option Str :=
  match p.headers.get (upperStr (trim k)) with
  | some v => if v = [] then none else some v
  | none => none

/-- `payload.hasHeader(key)`. -/
def Payload.hasHeader (p : Payload) (k : Str) : Bool :=
  p.headers.has (upperStr (trim k))

/-- `payload.isByeBye`. -/
def Payload.isByeBye (p : Payload) : Bool :=
  p.getHeader (str "NTS") == some (str "ssdp:byebye")

/-- `payload.isAlive`. -/
def Payload.isAlive (p : Payload) : Bool :=
  p.getHeader (str "NTS") == some (str "ssdp:alive")

/-- `payload.isUpdate`. -/
def Payload.isUpdate (p : Payload) : Bool :=
  p.getHeader (str "NTS") == some (str "ssdp:update")

/-! ## The codec (`Payload.toString` / `Payload._decode`) -/

/-- The CRLF line separator. -/
def crlf : Str := ['\r', '\n']

/-- The request/status line `Payload.toString` emits for each method
(`HTTP/1.1 200 OK` for replies, `${method.toUpperCase()} * HTTP/1.1` for
`m-search` and `notify`). -/
def firstLineFor : Method → Str
  | .reply => str "HTTP/1.1 200 OK"
  | .notify => str "NOTIFY * HTTP/1.1"
  | .msearch => str "M-SEARCH * HTTP/1.1"

/-- One serialized header line: `` `${key.toUpperCase()}: ${value}` ``. -/
def renderHeaderLine (e : Str × Str) : Str := upperStr e.1 ++ str ": " ++ e.2

/-- `payload.toString()`: the request/status line, one line per header, a
blank-line terminator, all joined with CRLF.  The headers are collected via
`forEach` (which yields them sorted by name in code-unit order) and then
re-sorted with `a[0].localeCompare(b[0])`, so the emitted order is the host
collation order on the stored lower-case names. -/
def Payload.toWire (p : Payload) : Str :=
  joinSep crlf (firstLineFor p.method ::
    ((sortByColl p.headers.sorted).map renderHeaderLine ++ [crlf]))

/-- The body of the `for (const line of lines)` loop of `Payload._decode`:
`const [key, ...value] = line.split(':').map(part => part.trim());
 if (key && value.length > 0) headers.set(key.toUpperCase(), value.join(':').trim());`. -/
def parseHeaderLine (hs : Headers) (line : Str) : Headers :=
  match (splitOnC ':' line).map trim with
  | [] => hs
  | key :: vals =>
    if key ≠ [] ∧ vals ≠ [] then hs.set (upperStr key) (trim (joinSep [':'] vals)) else hs

/-- `Payload._decode(payload)`: drop the first line, trim every remaining
line, drop blank lines, and fold the per-line parser into a fresh header set. -/
def decodeHeaders (payload : Str) : Headers :=
  ((((splitOnC '\n' payload).drop 1).map trim).filter (fun l => !l.isEmpty)).foldl
    parseHeaderLine .empty

/-- Specification-side description of one decode-loop line (the amended
claim C4's wording): split the line on every colon, trim every piece; the
key is the first piece upper-cased, the value is the remaining pieces
rejoined with colons and trimmed; a line with an empty key or no colon at
all yields nothing. -/
def parseLinePair (line : Str) : Option (Str × Str) :=
  match (splitOnC ':' line).map trim with
  | [] => none
  | key :: vals =>
    if key ≠ [] ∧ vals ≠ [] then some (upperStr key, trim (joinSep [':'] vals)) else none

/-- The decode line pipeline: drop the first line, trim every remaining
line, drop blank lines. -/
def decodedLines (payload : Str) : List Str :=
  (((splitOnC '\n' payload).drop 1).map trim).filter (fun l => !l.isEmpty)

/-- `SSDP.Search.decode(payload, host, port)`. -/
def Search.decode (payload : Str) (host : Str) (port : Nat) : Payload :=
  { mkSearch host port with headers := decodeHeaders payload }

/-- `SSDP.Notification.decode(payload)`. -/
def Notification.decode (payload : Str) : Payload :=
  { mkNotification with headers := decodeHeaders payload }

/-- `SSDP.Reply.decode(payload)`. -/
def Reply.decode (payload : Str) : Payload :=
  { mkReply with headers := decodeHeaders payload }

/-! ## The socket-level senders (`SSDP.search` / `notify` / `bye` / `reply`) -/

/-- A message handed to the multicast socket, together with its destination
(`socket.send(message.toBuffer(), { dstAddress, dstPort })`): the
destination is the multicast group when omitted, or an explicit
unicast address/port (used only by `SSDP.reply`). -/
inductive Sent where
  | multicast (msg : Payload)
  | unicast (host : Str) (port : Nat) (msg : Payload)
deriving DecidableEq

/-- `headers.forEach((value, key) => message.setHeader(key, value))`:
copies a header set into a payload. -/
def copyInto (dst : Payload) (src : Headers) : Payload :=
  src.sorted.foldl (fun m e => m.setHeader e.1 e.2) dst

/-- The SSDP multicast group address. -/
def multicastHost : Str := str "239.255.255.250"

/-- The `HOST` header value `239.255.255.250:1900`. -/
def hostHeaderValue : Str := str "239.255.255.250:1900"

/-- The message built and multicast by `SSDP.notify(serviceType, headers)`
(an `ssdp:alive` notification). -/
def ssdpNotify (serviceType : Str) (headers : Headers) : Payload :=
  let m := copyInto mkNotification headers
  let m := m.setHeader (str "HOST") hostHeaderValue
  let m := m.setHeader (str "NT") serviceType
  m.setHeader (str "NTS") (str "ssdp:alive")

/-- The message built and multicast by `SSDP.bye(serviceType, headers)`
(an `ssdp:byebye` notification). -/
def ssdpBye (serviceType : Str) (headers : Headers) : Payload :=
  let m := copyInto mkNotification headers
  let m := m.setHeader (str "HOST") hostHeaderValue
  let m := m.setHeader (str "NT") serviceType
  m.setHeader (str "NTS") (str "ssdp:byebye")

/-- The least `k` with `d ∣ 10 ^ k`, searched with explicit fuel (1101
covers every binary floating-point denominator, whose exponent is at most
1074). -/
def findPowAux (d : Nat) : Nat → Nat → Option Nat
  | _, 0 => none
  | k, fuel + 1 => if 10 ^ k % d == 0 then some k else findPowAux d (k + 1) fuel

/-- Modelled from the spec: `Number.prototype.toString` for the JavaScript
number `wait_time`.  A JS number with a short exact decimal expansion (such
as every value a caller writes as a decimal literal of at most 15
significant digits) prints as exactly that expansion, which is what this
renders: the numerator scaled by the least sufficient power of ten, with a
decimal point inserted.  A rational with no finite decimal expansion is not
a binary floating-point value at all, so its rendering here (a plain
fraction) stands for an unreachable case. -/
def decimalRender (q : ℚ) : Str :=
  match findPowAux q.den 0 1101 with
  | some k =>
    if k = 0 then str (toString q.num)
    else
      let ds := str (toString (q.num.natAbs * 10 ^ k / q.den))
      let ds := if ds.length < k + 1 then List.replicate (k + 1 - ds.length) '0' ++ ds else ds
      (if q.num < 0 then ['-'] else []) ++ ds.take (ds.length - k) ++ '.' :: ds.drop (ds.length - k)
  | none => str (toString q.num) ++ '/' :: str (toString q.den)

/-- `SSDP.search(serviceType, wait_time, headers)`: throws (`Except.error`)
for a wait time outside `[1, 5]` (`wait_time` is a JS number, so fractional
values are admitted and compared exactly); otherwise builds an `M-SEARCH`
message, which also throws — inside `setHeader('ST', ...)` — when the
trimmed service type is not a valid header value. -/
def ssdpSearch (serviceType : Str) (wait_time : ℚ) (headers : Headers) :
    Except Unit Payload :=
  if wait_time < 1 ∨ wait_time > 5 then .error ()
  else
    let m := copyInto (mkSearch multicastHost 1900) headers
    let m := m.setHeader (str "MAN") (str "\"ssdp:discover\"")
    let m := m.setHeader (str "HOST") hostHeaderValue
    if !validValue (trim serviceType) then .error ()
    else
      let m := m.setHeader (str "ST") serviceType
      let m := m.setHeader (str "MX") (decimalRender wait_time)
      let m := if !m.hasHeader (str "EXT") then m.setHeader (str "EXT") (str "") else m
      .ok m

/-! ## The Advertiser state machine -/

/-- Updates the value for key `k` in place, or appends (`Map.prototype.set`). -/
def mapSet (k : Str) (v : Headers) : List (Str × Headers) → List (Str × Headers)
  | [] => [(k, v)]
  | e :: rest => if e.1 = k then (k, v) :: rest else e :: mapSet k v rest

/-- `Map.prototype.has`. -/
def mapHas (m : List (Str × Headers)) (k : Str) : Bool := m.any (fun e => e.1 == k)

/-- `Map.prototype.get`. -/
def mapGet (m : List (Str × Headers)) (k : Str) : Option Headers :=
  (m.find? (fun e => e.1 == k)).map (·.2)

/-- `Map.prototype.delete` (by key). -/
def mapDelete (m : List (Str × Headers)) (k : Str) : List (Str × Headers) :=
  m.filter (fun e => !(e.1 == k))

/-- The Advertiser's mutable state: its immutable identity `uuid`, the
Service Table, and the terminal `isDestroyed` flag. -/
structure Advertiser where
  uuid : Str
  services : List (Str × Headers)
  isDestroyed : Bool
deriving DecidableEq

/-- `` `uuid:${uuid}::${service}` ``. -/
def usnFor (u service : Str) : Str := str "uuid:" ++ u ++ str "::" ++ service

/-- `` `uuid:${uuid}` ``. -/
def uuidTarget (u : Str) : Str := str "uuid:" ++ u

/-- A one-entry header init object such as `{ USN: ... }` passed through
`new Headers(...)`. -/
def singletonHeaders (name value : Str) : Headers := Headers.empty.set name value

/-- One `socket.bye(serviceType, { USN: usnValue })` call with the
`Headers` validation made explicit: the `Headers` constructor validates the
`USN` value first, then `setHeader('NT', serviceType)` passes the trimmed
service type through the container, so a NUL/LF/CR in either throws and no
message is built. -/
def byeCheckedE (serviceType usnValue : Str) : Except Unit Payload :=
  if !validValue (httpTrim usnValue) then .error ()
  else if !validValue (trim serviceType) then .error ()
  else .ok (ssdpBye serviceType (singletonHeaders (str "USN") usnValue))

/-- The messages actually sent by one fire-and-forget `socket.bye` call:
one multicast byebye, or nothing when the header construction throws. -/
def byeChecked (serviceType usnValue : Str) : List Sent :=
  match byeCheckedE serviceType usnValue with
  | .ok m => [.multicast m]
  | .error _ => []

/-- `Advertiser.send_goodbye(service)`: one `ssdp:byebye` for the service,
carrying `USN: uuid:<uuid>::<service>` (nothing when the byebye cannot be
constructed). -/
def Advertiser.sendGoodbye (a : Advertiser) (service : Str) : List Sent :=
  byeChecked service (usnFor a.uuid service)

/-- A sequence of awaited `socket.bye` calls: the first throw rejects the
enclosing async function, so later byes are not sent. -/
def sendByesSeq : List (Str × Str) → List Sent
  | [] => []
  | e :: t =>
    match byeCheckedE e.1 e.2 with
    | .ok m => .multicast m :: sendByesSeq t
    | .error _ => []

/-- `Advertiser.send_goodbyes()`: byebyes for the uuid identity, for
`upnp:rootdevice`, and for every Service Table entry, in that order,
awaited sequentially. -/
def Advertiser.sendGoodbyes (a : Advertiser) : List Sent :=
  sendByesSeq ((uuidTarget a.uuid, uuidTarget a.uuid) ::
    (str "upnp:rootdevice", usnFor a.uuid (str "upnp:rootdevice")) ::
    a.services.map (fun e => (e.1, usnFor a.uuid e.1)))

/-- `Advertiser.withdraw(service)`: removes the entry and sends one byebye
when present (returning `true`), otherwise does nothing (returning `false`).
Result: (new state, messages sent, return value). -/
def Advertiser.withdraw (a : Advertiser) (service : Str) :
    Advertiser × List Sent × Bool :=
  if mapHas a.services service then
    ({ a with services := mapDelete a.services service }, a.sendGoodbye service, true)
  else (a, [], false)

/-- `Advertiser.announce(service, headers)`: when the service is new, first
runs `notify` on the one-entry map (which sets `USN` on the — shared —
header object and sends an `ssdp:alive`), then upserts the entry. -/
def Advertiser.announce (a : Advertiser) (service : Str) (headers : Headers) :
    Advertiser × List Sent :=
  if mapHas a.services service then
    ({ a with services := mapSet service headers a.services }, [])
  else
    let h := headers.set (str "USN") (usnFor a.uuid service)
    ({ a with services := mapSet service h a.services }, [.multicast (ssdpNotify service h)])

/-- `Advertiser.notify_root_devices()`: the two identity `ssdp:alive`
notifications sent on every tick and by `announceNow`. -/
def Advertiser.rootNotifications (a : Advertiser) : List Sent :=
  [.multicast (ssdpNotify (str "upnp:rootdevice")
      (singletonHeaders (str "USN") (usnFor a.uuid (str "upnp:rootdevice")))),
    .multicast (ssdpNotify (uuidTarget a.uuid)
      (singletonHeaders (str "USN") (uuidTarget a.uuid)))]

/-- `Advertiser.notify(this._services)`: sets `USN` on each stored header
object and sends one `ssdp:alive` per entry. -/
def Advertiser.notifyAll (a : Advertiser) : Advertiser × List Sent :=
  let svcs := a.services.map (fun e => (e.1, e.2.set (str "USN") (usnFor a.uuid e.1)))
  ({ a with services := svcs }, svcs.map (fun e => .multicast (ssdpNotify e.1 e.2)))

/-- `Advertiser.announceNow()`. -/
def Advertiser.announceNow (a : Advertiser) : Advertiser × List Sent :=
  let n := a.notifyAll
  (n.1, a.rootNotifications ++ n.2)

/-- `Advertiser.destroy()`: a no-op when already destroyed; otherwise sets
the flag and sends the goodbyes (then tears down timer and socket). -/
def Advertiser.destroy (a : Advertiser) : Advertiser × List Sent :=
  if a.isDestroyed then (a, [])
  else ({ a with isDestroyed := true }, a.sendGoodbyes)

/-- The observable outcome of `Advertiser.handle_payload`: the `'search'`
event emitted (with its target), the replies sent, and whether an
`'error'` event was emitted for an unknown target. -/
structure HandleResult where
  searchEvent : Option Str
  sends : List Sent
  errorEmitted : Bool
deriving DecidableEq

/-- `Advertiser.reply(request, services)`: one unicast `Reply` per entry,
sent to the address/port carried by the request, carrying the entry's
headers plus `ST` and `USN`. -/
def Advertiser.replyAll (a : Advertiser) (request : Payload)
    (services : List (Str × Headers)) : List Sent :=
  services.map (fun e =>
    let r := copyInto mkReply e.2
    let r := r.setHeader (str "ST") e.1
    let r := r.setHeader (str "USN") (usnFor a.uuid e.1)
    .unicast request.host request.port r)

/-- `Advertiser.handle_payload(payload, local, remote)`: the validity gate
(`MAN`/`ST`), the authentication hook (whose verdict on the sender's
address is passed in as `authOK`), and the dispatch on the search target. -/
def Advertiser.handle_payload (a : Advertiser) (authOK : Bool) (payload : Payload) :
    HandleResult :=
  let man := payload.getHeader (str "MAN")
  let target? := payload.getHeader (str "ST")
  if man ≠ some (str "\"ssdp:discover\"") ∨ target? = none then ⟨none, [], false⟩
  else if !authOK then ⟨none, [], false⟩
  else
    match target? with
    | none => ⟨none, [], false⟩
    | some target =>
      let service := mapGet a.services target
      if target = str "ssdp:all" then
        ⟨some target, a.replyAll payload a.services, false⟩
      else if target = str "upnp:rootdevice" then
        ⟨some target, a.replyAll payload [(target, Headers.empty)], false⟩
      else if target = uuidTarget a.uuid then
        ⟨some target, a.replyAll payload [(target, Headers.empty)], false⟩
      else
        match service with
        | some svc => ⟨some target, a.replyAll payload [(target, svc)], false⟩
        | none => ⟨none, [], true⟩

/-! ## The Browser state machine -/

/-- The Browser's state: its Subscription Set (`_searchTargets`). -/
structure Browser where
  searchTargets : List Str
deriving DecidableEq

/-- The events the Browser emits for classified inbound traffic. -/
inductive BEvent where
  | discover
  | withdraw
deriving DecidableEq

/-- `Browser.handle_payload(target, payload, remote, local)`: subscription
gating followed by reply/NTS classification; `none` means no event. -/
def Browser.handle_payload (b : Browser) (target : Str) (payload : Payload) :
    Option BEvent :=
  if b.searchTargets.contains target then
    if payload.isReply then some .discover
    else
      let nts := payload.getHeader (str "NTS")
      if nts = some (str "ssdp:alive") ∨ nts = some (str "ssdp:update") then some .discover
      else if nts = some (str "ssdp:byebye") then some .withdraw
      else none
  else none

/-- The Browser's `'notification'` socket handler: extract `NT`; if truthy,
classify. -/
def Browser.onNotification (b : Browser) (payload : Payload) : Option BEvent :=
  match payload.getHeader (str "NT") with
  | some target => b.handle_payload target payload
  | none => none

/-- The Browser's `'reply'` socket handler: extract `ST`; if truthy,
classify. -/
def Browser.onReply (b : Browser) (payload : Payload) : Option BEvent :=
  match payload.getHeader (str "ST") with
  | some target => b.handle_payload target payload
  | none => none

/-! ## Well-formedness predicates -/

/-- The normalized form under which `setHeader` / `getHeader` / `hasHeader`
address a header name: trimmed, upper-cased by the payload accessors, then
lower-cased by the `Headers` container. -/
def normKey (k : Str) : Str := lowerStr (upperStr (trim k))

/-- A header name as the `Headers` container stores it: a valid (non-empty,
all-token) name — the constraint the container enforces by throwing — in its
stored lower-case form. -/
def keyWF (k : Str) : Prop :=
  validName k = true ∧ lowerStr k = k

/-- A header value as the `Headers` container stores it: normalized
(stripped of leading/trailing HTTP whitespace) and valid (no NUL/LF/CR) —
the constraints the container enforces on write. -/
def valWF (v : Str) : Prop :=
  httpTrim v = v ∧ validValue v = true

/-- A well-formed header set: what any reachable `Headers` object satisfies. -/
def HeadersWF (h : Headers) : Prop :=
  (h.entries.map (·.1)).Nodup ∧ ∀ e ∈ h.entries, keyWF e.1 ∧ valWF e.2

/-- A value is *colon-normal* when splitting it on colons, trimming every
piece and rejoining leaves it unchanged (no whitespace next to an interior
colon). -/
def colonNormal (v : Str) : Prop :=
  joinSep [':'] ((splitOnC ':' v).map trim) = v

/-! ## Character-level lemmas -/

theorem char_eq_of_toNat_eq {a b : Char} (h : a.toNat = b.toNat) : a = b :=
  Char.ext (UInt32.toNat.inj h)

theorem char_toNat_ofNat {n : Nat} (h : n < 55296) : (Char.ofNat n).toNat = n := by
  have hv : n.isValidChar := Or.inl h
  simp [Char.ofNat, hv, Char.ofNatAux, Char.toNat, UInt32.toNat]

theorem toUpper_toNat (c : Char) :
    (Char.toUpper c).toNat = if 97 ≤ c.toNat ∧ c.toNat ≤ 122 then c.toNat - 32 else c.toNat := by
  simp only [Char.toUpper, ge_iff_le]
  split_ifs with h
  · exact char_toNat_ofNat (by omega)
  · rfl

theorem toLower_toNat (c : Char) :
    (Char.toLower c).toNat = if 65 ≤ c.toNat ∧ c.toNat ≤ 90 then c.toNat + 32 else c.toNat := by
  simp only [Char.toLower, ge_iff_le]
  split_ifs with h
  · exact char_toNat_ofNat (by omega)
  · rfl

theorem lower_upper_lower (c : Char) (h : Char.toLower c = c) :
    Char.toLower (Char.toUpper c) = c := by
  apply char_eq_of_toNat_eq
  have hn : ¬(65 ≤ c.toNat ∧ c.toNat ≤ 90) := by
    intro hc
    have h2 := congrArg Char.toNat h
    rw [toLower_toNat] at h2
    simp [hc] at h2
  rw [toLower_toNat, toUpper_toNat]
  split_ifs <;> omega

theorem upper_upper (c : Char) : Char.toUpper (Char.toUpper c) = Char.toUpper c := by
  apply char_eq_of_toNat_eq
  rw [toUpper_toNat (Char.toUpper c), toUpper_toNat]
  split_ifs <;> omega

theorem wsChar_eq_true_iff (c : Char) :
    wsChar c = true ↔ (c.toNat = 9 ∨ c.toNat = 10 ∨ c.toNat = 11 ∨ c.toNat = 12 ∨
      c.toNat = 13 ∨ c.toNat = 32 ∨ c.toNat = 160 ∨ c.toNat = 5760 ∨
      (8192 ≤ c.toNat ∧ c.toNat ≤ 8202) ∨ c.toNat = 8232 ∨ c.toNat = 8233 ∨
      c.toNat = 8239 ∨ c.toNat = 8287 ∨ c.toNat = 12288 ∨ c.toNat = 65279) := by
  unfold wsChar wsCharN
  simp only [Bool.or_eq_true, beq_iff_eq, Bool.and_eq_true, decide_eq_true_eq]
  omega

theorem wsChar_of_httpWsChar {c : Char} (h : httpWsChar c = true) : wsChar c = true := by
  unfold httpWsChar at h
  simp only [Bool.or_eq_true, beq_iff_eq] at h
  rw [wsChar_eq_true_iff]
  omega

theorem httpWsChar_false_of_ws_false {c : Char} (h : wsChar c = false) :
    httpWsChar c = false := by
  rw [Bool.eq_false_iff]
  intro hc
  rw [wsChar_of_httpWsChar hc] at h
  exact Bool.noConfusion h

theorem tokenChar_no_ws {c : Char} (h : tokenChar c = true) : wsChar c = false := by
  unfold tokenChar tokenCharN at h
  simp only [Bool.or_eq_true, beq_iff_eq, Bool.and_eq_true, decide_eq_true_eq] at h
  rw [Bool.eq_false_iff]
  intro hw
  have hws := (wsChar_eq_true_iff c).mp hw
  omega

theorem tokenChar_no_colon {c : Char} (h : tokenChar c = true) : c ≠ ':' := by
  intro he
  subst he
  revert h
  decide

theorem char_toNat_lt (c : Char) : c.toNat < 1114112 := by
  have h : c.val.toNat < 55296 ∨ (57343 < c.val.toNat ∧ c.val.toNat < 1114112) := c.valid
  show c.val.toNat < 1114112
  omega

theorem collKey_inj {c d : Char} (h : collKey c = collKey d) : c = d := by
  unfold collKey at h
  have hc := char_toNat_lt c
  have hd := char_toNat_lt d
  apply char_eq_of_toNat_eq
  omega

theorem collRankN_digit {n : Nat} (h1 : 48 ≤ n) (h2 : n ≤ 57) :
    collRankN n = 32 + (n - 48) := by
  unfold collRankN
  rw [if_pos ⟨h1, h2⟩]

theorem collRankN_lower {n : Nat} (h1 : 97 ≤ n) (h2 : n ≤ 122) :
    collRankN n = 42 + (n - 97) := by
  unfold collRankN
  rw [if_neg (by omega), if_pos ⟨h1, h2⟩]

theorem collKey_lt_iff_alnum {c d : Char} (hc : alnumLower c = true)
    (hd : alnumLower d = true) : collKey c < collKey d ↔ c.toNat < d.toNat := by
  unfold alnumLower at hc hd
  simp only [Bool.or_eq_true, Bool.and_eq_true, decide_eq_true_eq] at hc hd
  unfold collKey
  rcases hc with hc | hc <;> rcases hd with hd | hd
  · rw [collRankN_digit hc.1 hc.2, collRankN_digit hd.1 hd.2]; omega
  · rw [collRankN_digit hc.1 hc.2, collRankN_lower hd.1 hd.2]; omega
  · rw [collRankN_lower hc.1 hc.2, collRankN_digit hd.1 hd.2]; omega
  · rw [collRankN_lower hc.1 hc.2, collRankN_lower hd.1 hd.2]; omega

theorem wsChar_toUpper (c : Char) : wsChar (Char.toUpper c) = wsChar c := by
  by_cases h : wsChar c = true
  · have hn := (wsChar_eq_true_iff c).mp h
    have he : Char.toUpper c = c := by
      apply char_eq_of_toNat_eq
      rw [toUpper_toNat]
      split_ifs <;> omega
    rw [he]
  · have hf : wsChar (Char.toUpper c) = true → False := by
      intro hu
      have h1 := (wsChar_eq_true_iff (Char.toUpper c)).mp hu
      rw [toUpper_toNat] at h1
      apply h
      apply (wsChar_eq_true_iff c).mpr
      split_ifs at h1 <;> omega
    simp only [Bool.not_eq_true] at h
    rw [h]
    exact Bool.eq_false_iff.mpr (fun hc => hf hc)

theorem toUpper_eq_nonletter {c d : Char} (hd : d.toNat < 65) :
    Char.toUpper c = d ↔ c = d := by
  constructor
  · intro h
    have h1 := congrArg Char.toNat h
    rw [toUpper_toNat] at h1
    apply char_eq_of_toNat_eq
    split_ifs at h1 <;> omega
  · intro h
    subst h
    apply char_eq_of_toNat_eq
    rw [toUpper_toNat]
    split_ifs <;> omega

/-! ## Trim-level lemmas -/

theorem dropWhile_head_not {p : Char → Bool} {l : Str} {c : Char}
    (h : (l.dropWhile p).head? = some c) : p c = false := by
  induction l with
  | nil => simp [List.dropWhile] at h
  | cons a rest ih =>
    rw [List.dropWhile_cons] at h
    split at h
    · exact ih h
    · simp at h
      subst h
      simp_all

theorem dropWhile_eq_self_of_head {p : Char → Bool} {l : Str}
    (h : ∀ c, l.head? = some c → p c = false) : l.dropWhile p = l := by
  cases l with
  | nil => rfl
  | cons a rest =>
    rw [List.dropWhile_cons]
    have := h a rfl
    simp [this]

theorem dropEndWS_append_ws {l : Str} {c : Char} (h : wsChar c = true) :
    dropEndWS (l ++ [c]) = dropEndWS l := by
  unfold dropEndWS
  rw [List.reverse_append]
  simp [List.dropWhile_cons, h]

theorem dropEndWS_append_not_ws {l : Str} {c : Char} (h : wsChar c = false) :
    dropEndWS (l ++ [c]) = l ++ [c] := by
  unfold dropEndWS
  rw [List.reverse_append]
  simp [List.dropWhile_cons, h]

theorem trim_append_ws {l : Str} {c : Char} (h : wsChar c = true) :
    trim (l ++ [c]) = trim l := by
  unfold trim
  rw [List.dropWhile_append]
  split
  · next he =>
    simp only [List.isEmpty_iff] at he
    rw [he]
    simp [List.dropWhile_cons, h, dropEndWS]
  · exact dropEndWS_append_ws h

theorem trim_append_not_ws {l : Str} {c : Char} (h : wsChar c = false) :
    trim (l ++ [c]) = l.dropWhile wsChar ++ [c] := by
  unfold trim
  rw [List.dropWhile_append]
  split
  · next he =>
    simp only [List.isEmpty_iff] at he
    rw [he]
    simp only [List.nil_append]
    simp [List.dropWhile_cons, h, dropEndWS]
  · exact dropEndWS_append_not_ws h

theorem dropEndWS_prefix (l : Str) : dropEndWS l <+: l := by
  unfold dropEndWS
  have h := (List.dropWhile_suffix (l := l.reverse) wsChar).reverse
  rwa [List.reverse_reverse] at h

theorem trim_head_not_ws {s : Str} {c : Char} (h : (trim s).head? = some c) :
    wsChar c = false := by
  unfold trim at h
  have hpre := dropEndWS_prefix (s.dropWhile wsChar)
  obtain ⟨r, hr⟩ := hpre
  apply dropWhile_head_not (p := wsChar) (l := s)
  rw [← hr, List.head?_append, h]
  rfl

theorem trim_getLast_not_ws {s : Str} {c : Char} (h : (trim s).getLast? = some c) :
    wsChar c = false := by
  rw [List.getLast?_eq_head?_reverse] at h
  unfold trim dropEndWS at h
  rw [List.reverse_reverse] at h
  exact dropWhile_head_not h

theorem trim_eq_self {s : Str}
    (h1 : ∀ c, s.head? = some c → wsChar c = false)
    (h2 : ∀ c, s.getLast? = some c → wsChar c = false) : trim s = s := by
  unfold trim
  rw [dropWhile_eq_self_of_head h1]
  unfold dropEndWS
  rw [dropWhile_eq_self_of_head, List.reverse_reverse]
  intro c hc
  exact h2 c (by rw [List.getLast?_eq_head?_reverse]; exact hc)

theorem trim_idem (s : Str) : trim (trim s) = trim s :=
  trim_eq_self (fun _ h => trim_head_not_ws h) (fun _ h => trim_getLast_not_ws h)

theorem httpTrim_eq_self {s : Str}
    (h1 : ∀ c, s.head? = some c → httpWsChar c = false)
    (h2 : ∀ c, s.getLast? = some c → httpWsChar c = false) : httpTrim s = s := by
  unfold httpTrim
  rw [dropWhile_eq_self_of_head h1]
  unfold dropEndHW
  rw [dropWhile_eq_self_of_head, List.reverse_reverse]
  intro c hc
  exact h2 c (by rw [List.getLast?_eq_head?_reverse]; exact hc)

/-- A string already `trim`-fixed has no HTTP whitespace at either end, so
the container's value normalization leaves it unchanged. -/
theorem httpTrim_of_trimmed {x : Str} (h : trim x = x) : httpTrim x = x :=
  httpTrim_eq_self
    (fun c hc => httpWsChar_false_of_ws_false (trim_head_not_ws (by rw [h]; exact hc)))
    (fun c hc => httpWsChar_false_of_ws_false (trim_getLast_not_ws (by rw [h]; exact hc)))

theorem trim_nil : trim [] = [] := rfl

theorem trim_cons_ws {s : Str} {c : Char} (h : wsChar c = true) :
    trim (c :: s) = trim s := by
  unfold trim
  rw [List.dropWhile_cons]
  simp [h]

/-! ## String-level corollaries -/

theorem lowerStr_upperStr : ∀ {k : Str}, lowerStr k = k → lowerStr (upperStr k) = k
  | [], _ => rfl
  | c :: t, h => by
    simp only [lowerStr, upperStr, List.map_cons, List.cons.injEq] at h ⊢
    exact ⟨lower_upper_lower c h.1, lowerStr_upperStr h.2⟩

theorem upperStr_upperStr (k : Str) : upperStr (upperStr k) = upperStr k := by
  unfold upperStr
  rw [List.map_map]
  exact List.map_congr_left (fun c _ => upper_upper c)

theorem trim_eq_self_of_no_ws {k : Str} (h : ∀ c ∈ k, wsChar c = false) : trim k = k := by
  apply trim_eq_self
  · intro c hc
    exact h c (List.mem_of_mem_head? hc)
  · intro c hc
    exact h c (List.mem_of_mem_getLast? hc)

theorem keyWF_ne_nil {k : Str} (h : keyWF k) : k ≠ [] := by
  intro he
  subst he
  have h1 := h.1
  revert h1
  decide

theorem keyWF_chars {k : Str} (h : keyWF k) : ∀ c ∈ k, wsChar c = false ∧ c ≠ ':' := by
  intro c hc
  have h1 := h.1
  unfold validName at h1
  rw [Bool.and_eq_true] at h1
  have htok : tokenChar c = true := List.all_eq_true.mp h1.2 c hc
  exact ⟨tokenChar_no_ws htok, tokenChar_no_colon htok⟩

theorem valWF_no_crlf {v : Str} (h : valWF v) : ∀ c ∈ v, c ≠ '\n' ∧ c ≠ '\r' := by
  intro c hc
  have h2 := h.2
  unfold validValue at h2
  have h3 := List.all_eq_true.mp h2 c hc
  have h4 : (c.toNat == 0 || c.toNat == 10 || c.toNat == 13) = false := by
    cases hb : (c.toNat == 0 || c.toNat == 10 || c.toNat == 13)
    · rfl
    · rw [hb] at h3
      exact absurd h3 (by decide)
  simp only [Bool.or_eq_false_iff, beq_eq_false_iff_ne, ne_eq] at h4
  constructor
  · intro he
    subst he
    exact h4.1.2 rfl
  · intro he
    subst he
    exact h4.2 rfl

theorem keyWF_normKey {k : Str} (h : keyWF k) : normKey k = k := by
  unfold normKey
  rw [trim_eq_self_of_no_ws (fun c hc => (keyWF_chars h c hc).1)]
  exact lowerStr_upperStr h.2

theorem upperStr_no_ws {k : Str} (h : ∀ c ∈ k, wsChar c = false) :
    ∀ c ∈ upperStr k, wsChar c = false := by
  intro c hc
  unfold upperStr at hc
  obtain ⟨d, hd, hdc⟩ := List.mem_map.mp hc
  rw [← hdc, wsChar_toUpper]
  exact h d hd

theorem upperStr_no_colon {k : Str} (h : ∀ c ∈ k, c ≠ ':') :
    ∀ c ∈ upperStr k, c ≠ ':' := by
  intro c hc
  unfold upperStr at hc
  obtain ⟨d, hd, hdc⟩ := List.mem_map.mp hc
  rw [← hdc]
  intro hcol
  exact h d hd ((toUpper_eq_nonletter (by decide)).mp hcol)

/-! ## `Headers` container lemmas -/

theorem find?_setEntries (k v q : Str) (l : List (Str × Str)) :
    ((setEntries k v l).find? (fun e => e.1 == q)).map (·.2) =
      if k = q then some v else (l.find? (fun e => e.1 == q)).map (·.2) := by
  induction l with
  | nil =>
    by_cases h : k = q <;> simp [setEntries, List.find?_cons, h]
  | cons e t ih =>
    simp only [setEntries]
    by_cases he : e.1 = k
    · rw [if_pos he]
      by_cases hq : k = q
      · subst hq
        simp [List.find?_cons]
      · have h2 : e.1 ≠ q := by rw [he]; exact hq
        simp [List.find?_cons, hq, h2]
    · rw [if_neg he]
      by_cases heq : e.1 = q
      · have hkq : ¬ k = q := fun hh => he (by rw [heq, hh])
        simp [List.find?_cons, heq, hkq]
      · simp only [List.find?_cons]
        have hb : (e.1 == q) = false := beq_eq_false_iff_ne.mpr heq
        rw [hb]
        exact ih

theorem any_setEntries (k v q : Str) (l : List (Str × Str)) :
    (setEntries k v l).any (fun e => e.1 == q) = ((k == q) || l.any (fun e => e.1 == q)) := by
  induction l with
  | nil => simp [setEntries]
  | cons e t ih =>
    simp only [setEntries]
    by_cases he : e.1 = k
    · rw [if_pos he]
      simp only [List.any_cons, he]
      cases hkq : k == q <;> simp
    · rw [if_neg he]
      simp only [List.any_cons, ih]
      cases hek : e.1 == q <;> cases hkq : k == q <;> simp

theorem Headers.get_set (h : Headers) (n v q : Str) :
    (h.set n v).get q = if lowerStr n = lowerStr q then some (httpTrim v) else h.get q := by
  unfold Headers.get Headers.set
  exact find?_setEntries (lowerStr n) (httpTrim v) (lowerStr q) h.entries

theorem Headers.has_set (h : Headers) (n v q : Str) :
    (h.set n v).has q = ((lowerStr n == lowerStr q) || h.has q) := by
  unfold Headers.has Headers.set
  exact any_setEntries (lowerStr n) (httpTrim v) (lowerStr q) h.entries

theorem Headers.get_empty (q : Str) : Headers.empty.get q = none := rfl

/-! ## Payload accessor lemmas -/

theorem headersGet_setHeader (p : Payload) (k v q : Str) :
    (p.setHeader k v).headers.get q =
      if normKey k = lowerStr q then some (trim v) else p.headers.get q := by
  unfold Payload.setHeader normKey
  simp only
  rw [Headers.get_set, httpTrim_of_trimmed (trim_idem v)]

theorem getHeader_setHeader (p : Payload) (k v q : Str) :
    (p.setHeader k v).getHeader q =
      if normKey k = normKey q then (if trim v = [] then none else some (trim v))
      else p.getHeader q := by
  unfold Payload.getHeader
  rw [headersGet_setHeader]
  unfold normKey
  split_ifs with h1 h2
  · simp [h2]
  · simp [h2]
  · rfl

theorem hasHeader_setHeader (p : Payload) (k v q : Str) :
    (p.setHeader k v).hasHeader q = ((normKey k == normKey q) || p.hasHeader q) := by
  unfold Payload.hasHeader Payload.setHeader normKey
  simp only
  rw [Headers.has_set]

theorem setHeader_method (p : Payload) (k v : Str) : (p.setHeader k v).method = p.method := rfl

theorem setHeader_host (p : Payload) (k v : Str) : (p.setHeader k v).host = p.host := rfl

theorem setHeader_port (p : Payload) (k v : Str) : (p.setHeader k v).port = p.port := rfl

theorem setHeader_isReply (p : Payload) (k v : Str) : (p.setHeader k v).isReply = p.isReply := rfl

/-! ## Header-copy lemmas -/

theorem find?_congr_mem {α : Type} {p p' : α → Bool} :
    ∀ {l : List α}, (∀ x ∈ l, p x = p' x) → l.find? p = l.find? p'
  | [], _ => rfl
  | a :: t, h => by
    simp only [List.find?_cons]
    rw [h a (by simp)]
    cases p' a with
    | true => rfl
    | false => exact find?_congr_mem (fun x hx => h x (List.mem_cons_of_mem a hx))

theorem find?_key_eq_of_perm {l l' : List (Str × Str)} (hp : l.Perm l')
    (hn : (l.map (fun e => e.1)).Nodup) (key : Str) :
    l'.find? (fun e => e.1 == key) = l.find? (fun e => e.1 == key) := by
  cases hf : l.find? (fun e : Str × Str => e.1 == key) with
  | none =>
    rw [List.find?_eq_none] at hf ⊢
    intro x hx
    exact hf x (hp.mem_iff.mpr hx)
  | some e =>
    have he_mem : e ∈ l := List.mem_of_find?_eq_some hf
    have he_key := List.find?_some hf
    simp only [beq_iff_eq] at he_key
    cases hf' : l'.find? (fun e : Str × Str => e.1 == key) with
    | none =>
      rw [List.find?_eq_none] at hf'
      have := hf' e (hp.mem_iff.mp he_mem)
      simp only [beq_iff_eq] at this
      exact absurd he_key this
    | some e' =>
      have he'_mem : e' ∈ l := hp.mem_iff.mpr (List.mem_of_find?_eq_some hf')
      have he'_key := List.find?_some hf'
      simp only [beq_iff_eq] at he'_key
      have hk : e'.1 = e.1 := by rw [he'_key, he_key]
      rw [List.inj_on_of_nodup_map hn he'_mem he_mem hk]

theorem insSortInsert_perm (le : Str → Str → Bool) (e : Str × Str) (l : List (Str × Str)) :
    (insSortInsert le e l).Perm (e :: l) := by
  induction l with
  | nil => exact .refl _
  | cons f t ih =>
    unfold insSortInsert
    split_ifs
    · exact .refl _
    · exact (ih.cons f).trans (List.Perm.swap e f t)

theorem insSortBy_perm (le : Str → Str → Bool) (l : List (Str × Str)) :
    (insSortBy le l).Perm l := by
  induction l with
  | nil => exact .refl _
  | cons e t ih => exact (insSortInsert_perm le e (insSortBy le t)).trans (ih.cons e)

theorem sortByKey_perm (l : List (Str × Str)) : (sortByKey l).Perm l :=
  insSortBy_perm lexLe l

theorem sortByColl_perm (l : List (Str × Str)) : (sortByColl l).Perm l :=
  insSortBy_perm collLe l

theorem headersGet_foldl_setHeader (l : List (Str × Str)) (m : Payload) (q : Str) :
    ((l.foldl (fun m e => m.setHeader e.1 e.2) m).headers.get q) =
      match l.reverse.find? (fun e => normKey e.1 == lowerStr q) with
      | some e => some (trim e.2)
      | none => m.headers.get q := by
  induction l generalizing m with
  | nil => simp
  | cons e t ih =>
    rw [List.foldl_cons, ih, List.reverse_cons, List.find?_append]
    cases hf : t.reverse.find? (fun e => normKey e.1 == lowerStr q) with
    | some x => simp [Option.or]
    | none =>
      simp only [Option.or, List.find?_cons, List.find?_nil]
      rw [headersGet_setHeader]
      by_cases hk : normKey e.1 = lowerStr q
      · have hb : (normKey e.1 == lowerStr q) = true := beq_iff_eq.mpr hk
        simp [hb, hk]
      · have hb : (normKey e.1 == lowerStr q) = false := beq_eq_false_iff_ne.mpr hk
        simp [hb, hk]

theorem copyInto_get (dst : Payload) (src : Headers) (hwf : HeadersWF src) (q : Str) :
    (copyInto dst src).headers.get q =
      match src.get q with
      | some v => some (trim v)
      | none => dst.headers.get q := by
  unfold copyInto Headers.sorted
  rw [headersGet_foldl_setHeader]
  have hmem : ∀ x ∈ (sortByKey src.entries).reverse, x ∈ src.entries := by
    intro x hx
    exact ((List.reverse_perm _).trans (sortByKey_perm _)).mem_iff.mp hx
  have hcongr : (sortByKey src.entries).reverse.find? (fun e => normKey e.1 == lowerStr q) =
      (sortByKey src.entries).reverse.find? (fun e => e.1 == lowerStr q) := by
    apply find?_congr_mem
    intro x hx
    rw [keyWF_normKey ((hwf.2 x (hmem x hx)).1)]
  rw [hcongr]
  rw [find?_key_eq_of_perm (((List.reverse_perm _).trans (sortByKey_perm _)).symm) hwf.1]
  unfold Headers.get
  cases hf : src.entries.find? (fun e : Str × Str => e.1 == lowerStr q) with
  | none => simp
  | some e => simp

theorem foldl_setHeader_method (l : List (Str × Str)) (m : Payload) :
    (l.foldl (fun m e => m.setHeader e.1 e.2) m).method = m.method := by
  induction l generalizing m with
  | nil => rfl
  | cons e t ih => rw [List.foldl_cons, ih]; rfl

theorem foldl_setHeader_isReply (l : List (Str × Str)) (m : Payload) :
    (l.foldl (fun m e => m.setHeader e.1 e.2) m).isReply = m.isReply := by
  induction l generalizing m with
  | nil => rfl
  | cons e t ih => rw [List.foldl_cons, ih]; rfl

theorem mapHas_mapDelete (l : List (Str × Headers)) (k : Str) :
    mapHas (mapDelete l k) k = false := by
  unfold mapHas mapDelete
  rw [Bool.eq_false_iff]
  intro hc
  obtain ⟨e, hmem, hek⟩ := List.any_eq_true.mp hc
  have h2 := List.of_mem_filter hmem
  rw [hek] at h2
  exact Bool.false_ne_true h2

/-! ## Claim C5 — Advertiser search validity gate -/

/-- C5: for every decoded inbound Search payload whose `MAN` header is not
exactly `"ssdp:discover"` (quotes included) or which carries no `ST` header,
the Advertiser emits no `'search'` event and sends no reply (and emits no
error either), regardless of the authentication verdict. -/
theorem c5_search_validity_gate (a : Advertiser) (auth : Bool) (p : Payload)
    (h : p.getHeader (str "MAN") ≠ some (str "\"ssdp:discover\"") ∨
      p.getHeader (str "ST") = none) :
    a.handle_payload auth p = ⟨none, [], false⟩ := by
  unfold Advertiser.handle_payload
  simp only
  rw [if_pos h]

/-- C5 witness: a payload with no `MAN` header at all is dropped. -/
theorem c5_search_validity_gate_witness :
    (Advertiser.mk (str "u-1") [] false).handle_payload true mkNotification =
      ⟨none, [], false⟩ :=
  c5_search_validity_gate _ _ _ (Or.inr (by decide))

/-! ## Claim C2 — Browser subscription gating and NTS classification -/

/-- C2: an inbound Reply or Notification whose target (`ST` for a Reply, `NT`
for a Notification) is absent or not in the Subscription Set produces no
Browser event; for a subscribed target, a Reply yields `discover`, a
Notification with `NTS` `ssdp:alive` or `ssdp:update` yields `discover`,
`ssdp:byebye` yields `withdraw`, and any other or absent `NTS` yields no
event. -/
theorem c2_browser_gating_and_classification (b : Browser) (p : Payload) :
    (p.getHeader (str "ST") = none → b.onReply p = none) ∧
    (p.getHeader (str "NT") = none → b.onNotification p = none) ∧
    (∀ t, p.getHeader (str "ST") = some t → t ∉ b.searchTargets → b.onReply p = none) ∧
    (∀ t, p.getHeader (str "NT") = some t → t ∉ b.searchTargets →
      b.onNotification p = none) ∧
    (∀ t, p.getHeader (str "ST") = some t → t ∈ b.searchTargets → p.isReply = true →
      b.onReply p = some .discover) ∧
    (∀ t, p.getHeader (str "NT") = some t → t ∈ b.searchTargets → p.isReply = false →
      (p.getHeader (str "NTS") = some (str "ssdp:alive") ∨
        p.getHeader (str "NTS") = some (str "ssdp:update")) →
      b.onNotification p = some .discover) ∧
    (∀ t, p.getHeader (str "NT") = some t → t ∈ b.searchTargets → p.isReply = false →
      p.getHeader (str "NTS") = some (str "ssdp:byebye") →
      b.onNotification p = some .withdraw) ∧
    (∀ t, p.getHeader (str "NT") = some t → t ∈ b.searchTargets → p.isReply = false →
      p.getHeader (str "NTS") ≠ some (str "ssdp:alive") →
      p.getHeader (str "NTS") ≠ some (str "ssdp:update") →
      p.getHeader (str "NTS") ≠ some (str "ssdp:byebye") →
      b.onNotification p = none) := by
  refine ⟨?_, ?_, ?_, ?_, ?_, ?_, ?_, ?_⟩
  · intro h
    unfold Browser.onReply
    rw [h]
  · intro h
    unfold Browser.onNotification
    rw [h]
  · intro t ht hmem
    simp [Browser.onReply, Browser.handle_payload, ht, hmem]
  · intro t ht hmem
    simp [Browser.onNotification, Browser.handle_payload, ht, hmem]
  · intro t ht hmem hrep
    simp [Browser.onReply, Browser.handle_payload, ht, hmem, hrep]
  · intro t ht hmem hrep hnts
    have hc : b.searchTargets.contains t = true := List.elem_eq_true_of_mem hmem
    simp only [Browser.onNotification, Browser.handle_payload, ht, hc, hrep, if_true,
      Bool.false_eq_true, if_false]
    rw [if_pos hnts]
  · intro t ht hmem hrep hnts
    have hc : b.searchTargets.contains t = true := List.elem_eq_true_of_mem hmem
    simp only [Browser.onNotification, Browser.handle_payload, ht, hc, hrep, if_true,
      Bool.false_eq_true, if_false]
    rw [if_neg (by rw [hnts]; decide), if_pos hnts]
  · intro t ht hmem hrep h1 h2 h3
    have hc : b.searchTargets.contains t = true := List.elem_eq_true_of_mem hmem
    simp only [Browser.onNotification, Browser.handle_payload, ht, hc, hrep, if_true,
      Bool.false_eq_true, if_false]
    rw [if_neg (by simp [h1, h2]), if_neg (by simp [h3])]

/-- C2 witness: a subscribed byebye Notification yields one `withdraw`. -/
theorem c2_browser_gating_and_classification_witness :
    (Browser.mk [str "urn:test:1"]).onNotification
      (Notification.decode (str "NOTIFY * HTTP/1.1\nNT: urn:test:1\nNTS: ssdp:byebye\n\n")) =
      some .withdraw :=
  (c2_browser_gating_and_classification (Browser.mk [str "urn:test:1"])
      (Notification.decode (str "NOTIFY * HTTP/1.1\nNT: urn:test:1\nNTS: ssdp:byebye\n\n"))).2.2.2.2.2.2.1
    (str "urn:test:1") (by decide) (by decide) (by decide) (by decide)

/-! ## Claim C3 — the destroyed flag -/

/-- C3 counterexample: the claim says announce after destroy leaves the
Service Table unchanged, but `announce` is not gated on the destroyed flag:
on a destroyed Advertiser with an empty Service Table, announcing a service
changes the table (and sends a notification). -/
theorem c3_counterexample :
    ((Advertiser.mk (str "u-1") [] true).announce (str "svc:1") Headers.empty).1.services ≠
      (Advertiser.mk (str "u-1") [] true).services ∧
    ((Advertiser.mk (str "u-1") [] true).announce (str "svc:1") Headers.empty).2 ≠ [] := by
  constructor
  · decide
  · decide

/-- C3 (amended): once the destroyed flag is set by `destroy()`, a second
`destroy()` is a no-op — it sends no goodbyes and does not re-enter
destruction.  The flag does not gate the other public operations:
`announce`, `withdraw` and `announceNow` behave identically whatever the
flag's value (in particular they still mutate the Service Table and send). -/
theorem c3_destroy_idempotent_flag_ungated
    (u : Str) (svcs : List (Str × Headers)) (b1 b2 : Bool) (a : Advertiser)
    (s : Str) (h : Headers) :
    (a.isDestroyed = true → a.destroy = (a, [])) ∧
    ((a.destroy).1.destroy = ((a.destroy).1, [])) ∧
    ((a.destroy).1.isDestroyed = true) ∧
    (((Advertiser.mk u svcs b1).announce s h).1.services =
        ((Advertiser.mk u svcs b2).announce s h).1.services ∧
      ((Advertiser.mk u svcs b1).announce s h).2 = ((Advertiser.mk u svcs b2).announce s h).2) ∧
    (((Advertiser.mk u svcs b1).withdraw s).1.services =
        ((Advertiser.mk u svcs b2).withdraw s).1.services ∧
      ((Advertiser.mk u svcs b1).withdraw s).2 = ((Advertiser.mk u svcs b2).withdraw s).2) ∧
    (((Advertiser.mk u svcs b1).announceNow).1.services =
        ((Advertiser.mk u svcs b2).announceNow).1.services ∧
      ((Advertiser.mk u svcs b1).announceNow).2 = ((Advertiser.mk u svcs b2).announceNow).2) := by
  refine ⟨?_, ?_, ?_, ?_, ?_, ?_⟩
  · intro hd
    unfold Advertiser.destroy
    rw [if_pos hd]
  · by_cases hd : a.isDestroyed = true
    · simp [Advertiser.destroy, hd]
    · unfold Advertiser.destroy
      rw [if_neg hd]
      simp
  · unfold Advertiser.destroy
    by_cases hd : a.isDestroyed = true
    · rw [if_pos hd]
      exact hd
    · rw [if_neg hd]
  · unfold Advertiser.announce
    split_ifs <;> exact ⟨rfl, rfl⟩
  · unfold Advertiser.withdraw
    split_ifs <;> exact ⟨rfl, rfl⟩
  · unfold Advertiser.announceNow Advertiser.notifyAll Advertiser.rootNotifications
    exact ⟨rfl, rfl⟩

/-- C3 witness: instantiated on a destroyed one-service Advertiser. -/
theorem c3_destroy_idempotent_flag_ungated_witness :
    (Advertiser.mk (str "u-1") [(str "svc:1", Headers.empty)] true).destroy =
      ((Advertiser.mk (str "u-1") [(str "svc:1", Headers.empty)] true), []) :=
  (c3_destroy_idempotent_flag_ungated (str "u-1") [] true true
      (Advertiser.mk (str "u-1") [(str "svc:1", Headers.empty)] true)
      (str "svc:1") Headers.empty).1 rfl

/-! ## Claim C8 — idempotent withdraw -/

/-- C8 counterexample: the claim promises one `ssdp:byebye` for every
present service that is withdrawn, but a Service Table key containing a
line break (reachable, since `announce` stores arbitrary strings) makes the
`Headers` construction inside `socket.bye` throw a `TypeError`: the entry
is removed and `true` is returned, yet nothing is sent. -/
theorem c8_withdraw_counterexample :
    (Advertiser.mk (str "u-1") [(str "svc\n1", Headers.empty)] false).withdraw
        (str "svc\n1") =
      (Advertiser.mk (str "u-1") [] false, [], true) := by
  decide

/-- C8 (amended): if service `S` is present, `withdraw(S)` removes the entry
and returns `true`, and — provided the `USN` and (trimmed) `NT` values the
byebye needs are valid header values, which holds for every service name
free of NUL/LF/CR — sends exactly one `ssdp:byebye` notification for `S`
with `NT` the JavaScript-trimmed `S`; when the trimmed `S` is not a valid
header value the header construction throws and nothing is sent.  If `S` is
absent, `withdraw` returns `false` and sends nothing; hence a second
withdraw of the same service returns `false` and sends no byebye. -/
theorem c8_withdraw_idempotent (a : Advertiser) (s : Str) :
    (mapHas a.services s = false → a.withdraw s = (a, [], false)) ∧
    (mapHas a.services s = true →
      a.withdraw s = ({ a with services := mapDelete a.services s }, a.sendGoodbye s, true) ∧
      ((a.withdraw s).1).withdraw s = ((a.withdraw s).1, [], false) ∧
      (validValue (httpTrim (usnFor a.uuid s)) = true → validValue (trim s) = true →
        ∃ m : Payload, a.sendGoodbye s = [.multicast m] ∧
          m.isByeBye = true ∧ m.method = .notify ∧
          m.headers.get (str "nt") = some (trim s)) ∧
      (validValue (trim s) = false → a.sendGoodbye s = [])) := by
  constructor
  · intro hno
    unfold Advertiser.withdraw
    rw [hno]
    simp
  · intro hyes
    refine ⟨?_, ?_, ?_, ?_⟩
    · unfold Advertiser.withdraw
      rw [hyes]
      simp
    · unfold Advertiser.withdraw
      rw [hyes]
      simp only [if_true]
      rw [if_neg]
      rw [mapHas_mapDelete]
      exact Bool.false_ne_true
    · intro hu hn
      refine ⟨ssdpBye s (singletonHeaders (str "USN") (usnFor a.uuid s)), ?_, ?_, ?_, ?_⟩
      · unfold Advertiser.sendGoodbye byeChecked byeCheckedE
        rw [hu, hn]
        rfl
      · unfold Payload.isByeBye ssdpBye
        simp only
        rw [getHeader_setHeader]
        rw [if_pos rfl]
        rw [if_neg (by decide)]
        decide
      · unfold ssdpBye
        simp only [setHeader_method]
        unfold copyInto
        rw [foldl_setHeader_method]
        rfl
      · unfold ssdpBye
        simp only
        rw [headersGet_setHeader, if_neg (by decide), headersGet_setHeader, if_pos (by decide)]
    · intro hbad
      unfold Advertiser.sendGoodbye byeChecked byeCheckedE
      cases hu : validValue (httpTrim (usnFor a.uuid s))
      · rfl
      · rw [hbad]
        rfl

/-- C8 witness: withdrawing a present (well-formed) service removes it and
sends one byebye with `NT` the trimmed service name; a second withdraw is a
no-op. -/
theorem c8_withdraw_idempotent_witness :
    ((Advertiser.mk (str "u-1") [(str "svc:1", Headers.empty)] false).withdraw (str "svc:1") =
      (Advertiser.mk (str "u-1")
          (mapDelete [(str "svc:1", Headers.empty)] (str "svc:1")) false,
        (Advertiser.mk (str "u-1") [(str "svc:1", Headers.empty)] false).sendGoodbye
          (str "svc:1"), true)) ∧
    (∃ m : Payload,
      (Advertiser.mk (str "u-1") [(str "svc:1", Headers.empty)] false).sendGoodbye
          (str "svc:1") =
        [.multicast m] ∧ m.isByeBye = true ∧ m.method = .notify ∧
        m.headers.get (str "nt") = some (trim (str "svc:1"))) ∧
    ((((Advertiser.mk (str "u-1") [(str "svc:1", Headers.empty)] false).withdraw
        (str "svc:1")).1).withdraw (str "svc:1") =
      (((Advertiser.mk (str "u-1") [(str "svc:1", Headers.empty)] false).withdraw
        (str "svc:1")).1, [], false)) :=
  ⟨((c8_withdraw_idempotent (Advertiser.mk (str "u-1") [(str "svc:1", Headers.empty)] false)
      (str "svc:1")).2 (by decide)).1,
    ((c8_withdraw_idempotent (Advertiser.mk (str "u-1") [(str "svc:1", Headers.empty)] false)
      (str "svc:1")).2 (by decide)).2.2.1 (by decide) (by decide),
    ((c8_withdraw_idempotent (Advertiser.mk (str "u-1") [(str "svc:1", Headers.empty)] false)
      (str "svc:1")).2 (by decide)).2.1⟩

/-! ## Advertiser dispatch helper lemmas -/

theorem uuidTarget_ne_all (u : Str) : uuidTarget u ≠ str "ssdp:all" := by
  intro h
  unfold uuidTarget str at h
  rw [show ("uuid:".data : Str) = 'u' :: 'u' :: 'i' :: 'd' :: ':' :: [] from rfl,
    show ("ssdp:all".data : Str) = 's' :: 's' :: 'd' :: 'p' :: ':' :: 'a' :: 'l' :: 'l' :: [] from
      rfl] at h
  simp at h

theorem uuidTarget_ne_root (u : Str) : uuidTarget u ≠ str "upnp:rootdevice" := by
  intro h
  unfold uuidTarget str at h
  rw [show ("uuid:".data : Str) = 'u' :: 'u' :: 'i' :: 'd' :: ':' :: [] from rfl] at h
  rw [show ("upnp:rootdevice".data : Str) =
    'u' :: 'p' :: 'n' :: 'p' :: ':' :: 'r' :: 'o' :: 'o' :: 't' :: 'd' :: 'e' :: 'v' :: 'i' ::
      'c' :: 'e' :: [] from rfl] at h
  simp at h

theorem handle_payload_dispatch (a : Advertiser) (p : Payload) (t : Str)
    (hman : p.getHeader (str "MAN") = some (str "\"ssdp:discover\""))
    (hst : p.getHeader (str "ST") = some t) :
    a.handle_payload true p =
      (if t = str "ssdp:all" then ⟨some t, a.replyAll p a.services, false⟩
       else if t = str "upnp:rootdevice" then ⟨some t, a.replyAll p [(t, Headers.empty)], false⟩
       else if t = uuidTarget a.uuid then ⟨some t, a.replyAll p [(t, Headers.empty)], false⟩
       else match mapGet a.services t with
         | some svc => ⟨some t, a.replyAll p [(t, svc)], false⟩
         | none => ⟨none, [], true⟩) := by
  unfold Advertiser.handle_payload
  simp only [hman, hst]
  rw [if_neg (by simp)]
  simp

theorem getHeader_some_ne_nil {p : Payload} {k v : Str} (h : p.getHeader k = some v) :
    v ≠ [] := by
  unfold Payload.getHeader at h
  split at h
  · split at h
    · exact absurd h (by simp)
    · next hne =>
      rw [← Option.some.inj h]
      exact hne
  · exact absurd h (by simp)

theorem trim_usnFor {u S : Str} (htrim : trim S = S) (hne : S ≠ []) :
    trim (usnFor u S) = usnFor u S := by
  apply trim_eq_self
  · intro c hc
    have hh : (usnFor u S).head? = some 'u' := rfl
    rw [hh] at hc
    have := Option.some.inj hc
    rw [← this]
    rfl
  · intro c hc
    unfold usnFor at hc
    rw [List.getLast?_append_of_ne_nil _ hne] at hc
    have hS : (trim S).getLast? = some c := by rw [htrim]; exact hc
    exact trim_getLast_not_ws hS

/-! ## Claim C7 — root-device and identity auto-reply -/

/-- C7: an Advertiser receiving a valid authenticated Search whose `ST` is
`upnp:rootdevice` or `uuid:<its own uuid>` always emits a `'search'` event
and sends exactly one unicast reply for that target — whatever its Service
Table contains (in particular when it is empty). -/
theorem c7_root_and_identity_autoreply (a : Advertiser) (p : Payload)
    (hman : p.getHeader (str "MAN") = some (str "\"ssdp:discover\"")) :
    (p.getHeader (str "ST") = some (str "upnp:rootdevice") →
      ∃ r : Payload, a.handle_payload true p =
          ⟨some (str "upnp:rootdevice"), [.unicast p.host p.port r], false⟩ ∧
        r.method = .reply ∧
        r.headers.get (str "st") = some (str "upnp:rootdevice")) ∧
    (p.getHeader (str "ST") = some (uuidTarget a.uuid) →
      ∃ r : Payload, a.handle_payload true p =
          ⟨some (uuidTarget a.uuid), [.unicast p.host p.port r], false⟩ ∧
        r.method = .reply ∧
        r.headers.get (str "st") = some (trim (uuidTarget a.uuid))) := by
  constructor
  · intro hst
    rw [handle_payload_dispatch a p _ hman hst]
    rw [if_neg (by decide), if_pos rfl]
    refine ⟨((copyInto mkReply Headers.empty).setHeader (str "ST")
        (str "upnp:rootdevice")).setHeader (str "USN")
          (usnFor a.uuid (str "upnp:rootdevice")), ?_, ?_, ?_⟩
    · unfold Advertiser.replyAll
      rfl
    · rfl
    · rw [headersGet_setHeader, if_neg (by decide), headersGet_setHeader, if_pos (by decide)]
      decide
  · intro hst
    rw [handle_payload_dispatch a p _ hman hst]
    rw [if_neg (uuidTarget_ne_all a.uuid), if_neg (uuidTarget_ne_root a.uuid), if_pos rfl]
    refine ⟨((copyInto mkReply Headers.empty).setHeader (str "ST")
        (uuidTarget a.uuid)).setHeader (str "USN")
          (usnFor a.uuid (uuidTarget a.uuid)), ?_, ?_, ?_⟩
    · unfold Advertiser.replyAll
      rfl
    · rfl
    · rw [headersGet_setHeader, if_neg (by decide), headersGet_setHeader, if_pos (by decide)]

/-- C7 witness: a search for `upnp:rootdevice` against an empty Service
Table still produces the event and one reply. -/
theorem c7_root_and_identity_autoreply_witness :
    ∃ r : Payload,
      (Advertiser.mk (str "u-1") [] false).handle_payload true
          (Search.decode
            (str "M-SEARCH * HTTP/1.1\nMAN: \"ssdp:discover\"\nST: upnp:rootdevice\n\n")
            (str "10.0.0.9") 4321) =
        ⟨some (str "upnp:rootdevice"),
          [.unicast (str "10.0.0.9") 4321 r], false⟩ ∧
      r.method = .reply ∧
      r.headers.get (str "st") = some (str "upnp:rootdevice") :=
  (c7_root_and_identity_autoreply (Advertiser.mk (str "u-1") [] false)
      (Search.decode
        (str "M-SEARCH * HTTP/1.1\nMAN: \"ssdp:discover\"\nST: upnp:rootdevice\n\n")
        (str "10.0.0.9") 4321)
      (by decide)).1 (by decide)

/-! ## Claim C6 — reply construction for an advertised service -/

/-- C6 counterexample: the claim says the reply carries every header of `H`
unchanged, but the reply is built by copying `H` through
`reply.setHeader(name, value)`, whose JavaScript `value.trim()` strips the
full JS whitespace class — while the `Headers` container stores values after
stripping only HTTP whitespace.  A stored value ending in a no-break space
is therefore reachable, and its copy in the reply loses that character. -/
theorem c6_service_reply_counterexample :
    (Headers.empty.set (str "x") (str "a\u00A0")).get (str "x") = some (str "a\u00A0") ∧
    ((Advertiser.mk (str "U")
          [(str "urn:test:1", Headers.empty.set (str "x") (str "a\u00A0"))]
          false).handle_payload true
        (Search.decode
          (str "M-SEARCH * HTTP/1.1\nMAN: \"ssdp:discover\"\nST: urn:test:1\n\n")
          (str "10.0.0.9") 4321)).sends.map
        (fun snt => match snt with
          | .unicast _ _ r => r.headers.get (str "x")
          | .multicast r => r.headers.get (str "x")) = [some (str "a")] ∧
    some (str "a") ≠ some (str "a\u00A0") := by
  refine ⟨by decide, by decide, by decide⟩

/-- C6 (amended): an Advertiser with uuid `U` holding service `S` (not one
of the special targets) with extra headers `H`, upon receiving a valid
authenticated Search with `ST = S`, sends exactly one Reply, unicast to the
host and port carried by the Search, whose headers contain `ST = S`,
`USN = uuid:U::S`, and — for every header of `H` other than `ST`/`USN`,
which the Advertiser overwrites — the same name with its value passed
through JavaScript `trim` (equal to the stored value whenever that value
has no exotic-whitespace ends, the common case). -/
theorem c6_service_reply_construction (a : Advertiser) (p : Payload) (S : Str) (H : Headers)
    (hman : p.getHeader (str "MAN") = some (str "\"ssdp:discover\""))
    (hst : p.getHeader (str "ST") = some S)
    (htrim : trim S = S)
    (hsvc : mapGet a.services S = some H)
    (hwf : HeadersWF H)
    (h1 : S ≠ str "ssdp:all") (h2 : S ≠ str "upnp:rootdevice") (h3 : S ≠ uuidTarget a.uuid) :
    ∃ r : Payload, a.handle_payload true p =
        ⟨some S, [.unicast p.host p.port r], false⟩ ∧
      r.method = .reply ∧
      r.headers.get (str "st") = some S ∧
      r.headers.get (str "usn") = some (usnFor a.uuid S) ∧
      (∀ k v, H.get k = some v → lowerStr k ≠ str "st" → lowerStr k ≠ str "usn" →
        r.headers.get k = some (trim v)) := by
  rw [handle_payload_dispatch a p _ hman hst]
  rw [if_neg h1, if_neg h2, if_neg h3, hsvc]
  refine ⟨((copyInto mkReply H).setHeader (str "ST") S).setHeader (str "USN")
    (usnFor a.uuid S), ?_, ?_, ?_, ?_, ?_⟩
  · unfold Advertiser.replyAll
    rfl
  · simp only [setHeader_method]
    unfold copyInto
    rw [foldl_setHeader_method]
    rfl
  · rw [headersGet_setHeader, if_neg (by decide), headersGet_setHeader, if_pos (by decide),
      htrim]
  · rw [headersGet_setHeader, if_pos (by decide),
      trim_usnFor htrim (getHeader_some_ne_nil hst)]
  · intro k v hk hkst hkusn
    rw [headersGet_setHeader, if_neg ?husn, headersGet_setHeader, if_neg ?hst2]
    case husn =>
      rw [show normKey (str "USN") = str "usn" from rfl]
      exact fun hh => hkusn hh.symm
    case hst2 =>
      rw [show normKey (str "ST") = str "st" from rfl]
      exact fun hh => hkst hh.symm
    rw [copyInto_get _ _ hwf, hk]

/-- C6 witness: the spec's end-to-end scenario — uuid `U`, service
`urn:test:1` with no extra headers. -/
theorem c6_service_reply_construction_witness :
    ∃ r : Payload,
      (Advertiser.mk (str "U") [(str "urn:test:1", Headers.empty)] false).handle_payload true
          (Search.decode
            (str "M-SEARCH * HTTP/1.1\nMAN: \"ssdp:discover\"\nST: urn:test:1\n\n")
            (str "10.0.0.9") 4321) =
        ⟨some (str "urn:test:1"), [.unicast (str "10.0.0.9") 4321 r], false⟩ ∧
      r.method = .reply ∧
      r.headers.get (str "st") = some (str "urn:test:1") ∧
      r.headers.get (str "usn") = some (usnFor (str "U") (str "urn:test:1")) ∧
      (∀ k v, Headers.empty.get k = some v → lowerStr k ≠ str "st" →
        lowerStr k ≠ str "usn" →
        r.headers.get k = some (trim v)) :=
  c6_service_reply_construction (Advertiser.mk (str "U") [(str "urn:test:1", Headers.empty)] false)
    (Search.decode (str "M-SEARCH * HTTP/1.1\nMAN: \"ssdp:discover\"\nST: urn:test:1\n\n")
      (str "10.0.0.9") 4321)
    (str "urn:test:1") Headers.empty (by decide) (by decide) (by decide) (by decide)
    ⟨List.nodup_nil, fun e he => absurd he (List.not_mem_nil e)⟩ (by decide) (by decide)
    (by decide)

/-! ## Claim C10 — search wait-time validation -/

/-- C10 counterexample: the claim promises success for every wait time in
`[1, 5]`, but a service type containing a line break makes the `Headers`
container throw a `TypeError` inside `setHeader('ST', ...)` even when the
wait time is valid, so the call rejects and no Search is sent. -/
theorem c10_search_counterexample :
    (1 ≤ (3 : ℚ) ∧ (3 : ℚ) ≤ 5) ∧
    ssdpSearch (str "urn:a\nb") 3 Headers.empty = .error () := by
  refine ⟨⟨by decide, by decide⟩, by decide⟩

/-- C10 (amended): `SSDP.search(serviceType, wait_time, headers)` throws
synchronously (producing no message) whenever `wait_time < 1` or
`wait_time > 5` — `wait_time` is a JS number, so fractional values are
admitted and compared exactly — and also, after that range check passes,
whenever the trimmed `serviceType` is not a valid header value (NUL/LF/CR).
For `wait_time` in `[1, 5]` and a valid service type it succeeds and the
outgoing Search is an `M-SEARCH` carrying `MAN = "ssdp:discover"`,
`ST = serviceType` (JS-trimmed) and `MX` the decimal rendering of
`wait_time`. -/
theorem c10_search_wait_time_validation (serviceType : Str) (w : ℚ) (hdrs : Headers) :
    ((w < 1 ∨ w > 5) → ssdpSearch serviceType w hdrs = .error ()) ∧
    (1 ≤ w → w ≤ 5 → validValue (trim serviceType) = false →
      ssdpSearch serviceType w hdrs = .error ()) ∧
    (1 ≤ w → w ≤ 5 → validValue (trim serviceType) = true →
      ∃ m : Payload, ssdpSearch serviceType w hdrs = .ok m ∧
        m.method = .msearch ∧
        m.headers.get (str "man") = some (str "\"ssdp:discover\"") ∧
        m.headers.get (str "mx") = some (trim (decimalRender w)) ∧
        m.headers.get (str "st") = some (trim serviceType)) := by
  refine ⟨?_, ?_, ?_⟩
  · intro h
    unfold ssdpSearch
    rw [if_pos h]
  · intro h1 h5 hbad
    unfold ssdpSearch
    rw [if_neg (by simp only [not_or, not_lt]; exact ⟨h1, h5⟩)]
    simp only [hbad]
    rfl
  · intro h1 h5 hgood
    unfold ssdpSearch
    rw [if_neg (by simp only [not_or, not_lt]; exact ⟨h1, h5⟩)]
    simp only [hgood, Bool.not_true, Bool.false_eq_true, if_false]
    split
    · refine ⟨_, rfl, ?_, ?_, ?_, ?_⟩
      · simp only [setHeader_method]
        unfold copyInto
        rw [foldl_setHeader_method]
        rfl
      · rw [headersGet_setHeader, if_neg (by decide), headersGet_setHeader, if_neg (by decide),
          headersGet_setHeader, if_neg (by decide), headersGet_setHeader, if_neg (by decide),
          headersGet_setHeader, if_pos (by decide)]
        decide
      · rw [headersGet_setHeader, if_neg (by decide), headersGet_setHeader, if_pos (by decide)]
      · rw [headersGet_setHeader, if_neg (by decide), headersGet_setHeader, if_neg (by decide),
          headersGet_setHeader, if_pos (by decide)]
    · refine ⟨_, rfl, ?_, ?_, ?_, ?_⟩
      · simp only [setHeader_method]
        unfold copyInto
        rw [foldl_setHeader_method]
        rfl
      · rw [headersGet_setHeader, if_neg (by decide), headersGet_setHeader, if_neg (by decide),
          headersGet_setHeader, if_neg (by decide), headersGet_setHeader, if_pos (by decide)]
        decide
      · rw [headersGet_setHeader, if_pos (by decide)]
      · rw [headersGet_setHeader, if_neg (by decide), headersGet_setHeader, if_pos (by decide)]

/-- C10 witness: the fractional wait time one half throws; the fractional
wait time five halves succeeds, with `MX: 2.5`. -/
theorem c10_search_wait_time_validation_witness :
    ssdpSearch (str "urn:test:1") (mkRat 1 2) Headers.empty = .error () ∧
    (∃ m : Payload, ssdpSearch (str "urn:test:1") (mkRat 5 2) Headers.empty = .ok m ∧
      m.method = .msearch ∧
      m.headers.get (str "man") = some (str "\"ssdp:discover\"") ∧
      m.headers.get (str "mx") = some (trim (decimalRender (mkRat 5 2))) ∧
      m.headers.get (str "st") = some (trim (str "urn:test:1"))) ∧
    decimalRender (mkRat 5 2) = str "2.5" :=
  ⟨(c10_search_wait_time_validation (str "urn:test:1") (mkRat 1 2) Headers.empty).1
      (Or.inl (by decide)),
    (c10_search_wait_time_validation (str "urn:test:1") (mkRat 5 2) Headers.empty).2.2
      (by decide) (by decide) (by decide),
    by decide⟩

/-! ## Key-order lemmas, generic in the per-character sort key -/

theorem lexLeBy_head_le {key : Char → Nat} {b c : Char} {bs cs : Str}
    (h : lexLeBy key (b :: bs) (c :: cs) = true) : key b ≤ key c := by
  simp only [lexLeBy] at h
  split_ifs at h with g1 g2 <;> omega

theorem lexLeBy_total (key : Char → Nat) :
    ∀ (a b : Str), lexLeBy key a b = true ∨ lexLeBy key b a = true
  | [], _ => Or.inl rfl
  | _ :: _, [] => Or.inr rfl
  | a :: as, b :: bs => by
    simp only [lexLeBy]
    rcases Nat.lt_trichotomy (key a) (key b) with h | h | h
    · left
      rw [if_pos h]
    · rw [if_neg (by omega), if_neg (by omega), if_neg (by omega), if_neg (by omega)]
      exact lexLeBy_total key as bs
    · right
      rw [if_pos h]

theorem lexLeBy_antisymm {key : Char → Nat} (hinj : ∀ c d : Char, key c = key d → c = d) :
    ∀ (a b : Str), lexLeBy key a b = true → lexLeBy key b a = true → a = b
  | [], [], _, _ => rfl
  | [], _ :: _, _, h => by simp [lexLeBy] at h
  | _ :: _, [], h, _ => by simp [lexLeBy] at h
  | a :: as, b :: bs, h1, h2 => by
    have hab := lexLeBy_head_le h1
    have hba := lexLeBy_head_le h2
    have heq : a = b := hinj a b (by omega)
    subst heq
    simp only [lexLeBy, if_neg (by omega : ¬ key a < key a)] at h1 h2
    rw [lexLeBy_antisymm hinj as bs h1 h2]

theorem lexLeBy_trans (key : Char → Nat) :
    ∀ (a b c : Str), lexLeBy key a b = true → lexLeBy key b c = true → lexLeBy key a c = true
  | [], _, _, _, _ => rfl
  | _ :: _, [], _, h, _ => absurd h (by simp [lexLeBy])
  | _ :: _, _ :: _, [], _, h => absurd h (by simp [lexLeBy])
  | a :: as, b :: bs, c :: cs, h1, h2 => by
    have hab := lexLeBy_head_le h1
    have hbc := lexLeBy_head_le h2
    simp only [lexLeBy]
    by_cases hac : key a < key c
    · rw [if_pos hac]
    · rw [if_neg hac, if_neg (by omega)]
      have heab : ¬ key a < key b := by omega
      have heba : ¬ key b < key a := by omega
      have hebc : ¬ key b < key c := by omega
      have hecb : ¬ key c < key b := by omega
      simp only [lexLeBy, if_neg heab, if_neg heba] at h1
      simp only [lexLeBy, if_neg hebc, if_neg hecb] at h2
      exact lexLeBy_trans key as bs cs h1 h2

/-- On strings over the lower-case alphanumeric alphabet, the modelled
collation agrees with code-unit order. -/
theorem collLe_eq_lexLe_alnum : ∀ {a b : Str}, (∀ c ∈ a, alnumLower c = true) →
    (∀ c ∈ b, alnumLower c = true) → collLe a b = lexLe a b
  | [], _, _, _ => rfl
  | _ :: _, [], _, _ => rfl
  | a :: as, b :: bs, ha, hb => by
    have hiff := collKey_lt_iff_alnum (ha a (by simp)) (hb b (by simp))
    have hiff2 := collKey_lt_iff_alnum (hb b (by simp)) (ha a (by simp))
    show lexLeBy collKey (a :: as) (b :: bs) = lexLeBy Char.toNat (a :: as) (b :: bs)
    simp only [lexLeBy]
    rcases Nat.lt_trichotomy a.toNat b.toNat with h | h | h
    · rw [if_pos (hiff.mpr h), if_pos h]
    · rw [if_neg (by rw [hiff]; omega), if_neg (by rw [hiff2]; omega),
        if_neg (by omega), if_neg (by omega)]
      exact collLe_eq_lexLe_alnum (fun c hc => ha c (List.mem_cons_of_mem a hc))
        (fun c hc => hb c (List.mem_cons_of_mem b hc))
    · rw [if_neg (by rw [hiff]; omega), if_pos (hiff2.mpr h), if_neg (by omega), if_pos h]

/-! ## Sortedness of the serialization order -/

theorem insSortInsert_pairwise {le : Str → Str → Bool}
    (htot : ∀ a b : Str, le a b = true ∨ le b a = true)
    (htrans : ∀ a b c : Str, le a b = true → le b c = true → le a c = true)
    {e : Str × Str} {l : List (Str × Str)}
    (hs : l.Pairwise (keyLeBy le)) : (insSortInsert le e l).Pairwise (keyLeBy le) := by
  induction l with
  | nil => simp [insSortInsert, keyLeBy]
  | cons f t ih =>
    obtain ⟨hf, ht⟩ := List.pairwise_cons.mp hs
    unfold insSortInsert
    split_ifs with hle
    · refine List.pairwise_cons.mpr ⟨?_, hs⟩
      intro x hx
      rcases List.mem_cons.mp hx with rfl | hx
      · exact hle
      · exact htrans e.1 f.1 x.1 hle (hf x hx)
    · refine List.pairwise_cons.mpr ⟨?_, ih ht⟩
      intro x hx
      rcases List.mem_cons.mp ((insSortInsert_perm le e t).mem_iff.mp hx) with rfl | hx
      · rcases htot x.1 f.1 with h | h
        · exact absurd h hle
        · exact h
      · exact hf x hx

theorem insSortBy_pairwise {le : Str → Str → Bool}
    (htot : ∀ a b : Str, le a b = true ∨ le b a = true)
    (htrans : ∀ a b c : Str, le a b = true → le b c = true → le a c = true)
    (l : List (Str × Str)) : (insSortBy le l).Pairwise (keyLeBy le) := by
  induction l with
  | nil => exact List.Pairwise.nil
  | cons e t ih => exact insSortInsert_pairwise htot htrans ih

theorem sortByKey_pairwise (l : List (Str × Str)) : (sortByKey l).Pairwise keyLe :=
  insSortBy_pairwise (lexLeBy_total Char.toNat) (lexLeBy_trans Char.toNat) l

theorem sortByColl_pairwise (l : List (Str × Str)) :
    (sortByColl l).Pairwise (keyLeBy collLe) :=
  insSortBy_pairwise (lexLeBy_total collKey) (lexLeBy_trans collKey) l

theorem sorted_nodupkeys_perm_eq {le : Str → Str → Bool}
    (hanti : ∀ a b : Str, le a b = true → le b a = true → a = b)
    {l1 l2 : List (Str × Str)} (hp : l1.Perm l2)
    (h1 : l1.Pairwise (keyLeBy le)) (h2 : l2.Pairwise (keyLeBy le))
    (hn : (l1.map (fun e => e.1)).Nodup) : l1 = l2 := by
  induction l1 generalizing l2 with
  | nil => exact hp.nil_eq
  | cons a t1 ih =>
    cases l2 with
    | nil =>
      have hnil := hp.eq_nil
      simp at hnil
    | cons b t2 =>
      have hab : a = b := by
        have ha2 : a ∈ b :: t2 := hp.mem_iff.mp (List.mem_cons_self a t1)
        have hb1 : b ∈ a :: t1 := hp.mem_iff.mpr (List.mem_cons_self b t2)
        rcases List.mem_cons.mp ha2 with h | ha2
        · exact h
        · rcases List.mem_cons.mp hb1 with h | hb1
          · exact h.symm
          · exfalso
            have hba : keyLeBy le b a := (List.pairwise_cons.mp h2).1 a ha2
            have hab : keyLeBy le a b := (List.pairwise_cons.mp h1).1 b hb1
            have hfst : a.1 = b.1 := hanti _ _ hab hba
            have hnd := List.nodup_cons.mp hn
            apply hnd.1
            show a.1 ∈ List.map (fun e => e.1) t1
            rw [hfst]
            exact List.mem_map_of_mem (fun e => e.1) hb1
      subst hab
      rw [ih hp.cons_inv (List.pairwise_cons.mp h1).2 (List.pairwise_cons.mp h2).2
        (List.nodup_cons.mp hn).2]

/-! ## Claim C9 — deterministic serialization format -/

/-- C9 counterexample: `toString` orders the lines with `localeCompare`,
which is not code-unit lexicographic order.  The CLDR root collation places
low line before hyphen-minus, so a payload with header names `a_b` and
`a-b` serializes with the `A_B` line first although `a_b` is
lexicographically after `a-b`. -/
theorem c9_encode_counterexample :
    Payload.toWire ((mkNotification.setHeader (str "A_B") (str "1")).setHeader
        (str "A-B") (str "2")) =
      str "NOTIFY * HTTP/1.1\r\nA_B: 1\r\nA-B: 2\r\n\r\n" ∧
    lexLe (str "a_b") (str "a-b") = false := by
  refine ⟨by decide, by decide⟩

/-- C9 (amended): encoding produces the request/status line determined by
the method (`M-SEARCH * HTTP/1.1`, `NOTIFY * HTTP/1.1`, or
`HTTP/1.1 200 OK`), then one `KEY: value` line per header with the key
upper-cased, the lines ordered by the host collation (`localeCompare`) on
the stored lower-case names — independent of insertion order — then a
blank-line terminator, all joined with CRLF.  On names made only of
lower-case letters and digits the collation order coincides with ascending
lexicographic (code-unit) order; on names with token punctuation it can
differ (see the counterexample). -/
theorem c9_encode_format (p : Payload) :
    (∃ L : List (Str × Str),
      Payload.toWire p =
        joinSep crlf (firstLineFor p.method :: (L.map renderHeaderLine ++ [crlf])) ∧
      L.Perm p.headers.entries ∧ L.Pairwise (keyLeBy collLe) ∧
      ((∀ e ∈ p.headers.entries, ∀ c ∈ e.1, alnumLower c = true) → L.Pairwise keyLe)) ∧
    (firstLineFor .msearch = str "M-SEARCH * HTTP/1.1" ∧
      firstLineFor .notify = str "NOTIFY * HTTP/1.1" ∧
      firstLineFor .reply = str "HTTP/1.1 200 OK") ∧
    (∀ q : Payload, q.method = p.method → q.headers.entries.Perm p.headers.entries →
      (p.headers.entries.map (fun e => e.1)).Nodup →
      Payload.toWire q = Payload.toWire p) := by
  have hLperm : (sortByColl (Headers.sorted p.headers)).Perm p.headers.entries :=
    (sortByColl_perm _).trans (sortByKey_perm _)
  refine ⟨⟨sortByColl (Headers.sorted p.headers), rfl, hLperm, sortByColl_pairwise _, ?_⟩,
    ⟨rfl, rfl, rfl⟩, ?_⟩
  · intro halnum
    refine (sortByColl_pairwise (Headers.sorted p.headers)).imp_of_mem ?_
    intro a b ha hb hc
    show lexLe a.1 b.1 = true
    rw [← collLe_eq_lexLe_alnum (halnum a (hLperm.mem_iff.mp ha))
      (halnum b (hLperm.mem_iff.mp hb))]
    exact hc
  · intro q hm hperm hnodup
    unfold Payload.toWire
    rw [hm]
    have hqperm : (sortByColl (Headers.sorted q.headers)).Perm p.headers.entries :=
      ((sortByColl_perm _).trans (sortByKey_perm _)).trans hperm
    have hnodup' : ((sortByColl (Headers.sorted q.headers)).map (fun e => e.1)).Nodup :=
      ((hqperm.map (fun e => e.1)).nodup_iff).mpr hnodup
    have hsorted : sortByColl (Headers.sorted q.headers) =
        sortByColl (Headers.sorted p.headers) :=
      sorted_nodupkeys_perm_eq (lexLeBy_antisymm (fun c d h => collKey_inj h))
        (hqperm.trans hLperm.symm)
        (sortByColl_pairwise _) (sortByColl_pairwise _) hnodup'
    rw [hsorted]

/-- C9 witness: two insertion orders of the same two headers serialize
byte-identically, and the alphanumeric-name order conjunct is exercised. -/
theorem c9_encode_format_witness :
    Payload.toWire ((mkNotification.setHeader (str "A") (str "1")).setHeader (str "B") (str "2")) =
      Payload.toWire ((mkNotification.setHeader (str "B") (str "2")).setHeader (str "A") (str "1")) :=
  (c9_encode_format
      ((mkNotification.setHeader (str "B") (str "2")).setHeader (str "A") (str "1"))).2.2
    ((mkNotification.setHeader (str "A") (str "1")).setHeader (str "B") (str "2"))
    (by decide) (by decide) (by decide)

/-! ## Decode characterization -/

theorem decodeHeaders_eq_foldl (s : Str) :
    decodeHeaders s = (decodedLines s).foldl parseHeaderLine .empty := rfl

theorem parseHeaderLine_eq (hs : Headers) (line : Str) :
    parseHeaderLine hs line =
      match parseLinePair line with
      | some e => hs.set e.1 e.2
      | none => hs := by
  unfold parseHeaderLine parseLinePair
  cases hsp : (splitOnC ':' line).map trim with
  | nil => rfl
  | cons key vals =>
    by_cases h : key ≠ [] ∧ vals ≠ []
    · simp only [if_pos h]
    · simp only [if_neg h]

theorem parseLinePair_value_trimmed {line : Str} {e : Str × Str}
    (h : parseLinePair line = some e) : trim e.2 = e.2 := by
  unfold parseLinePair at h
  cases hsp : (splitOnC ':' line).map trim with
  | nil =>
    rw [hsp] at h
    exact absurd h (by simp)
  | cons key vals =>
    rw [hsp] at h
    simp only [] at h
    by_cases hc : key ≠ [] ∧ vals ≠ []
    · rw [if_pos hc] at h
      rw [← Option.some.inj h]
      exact trim_idem _
    · rw [if_neg hc] at h
      exact absurd h (by simp)

theorem get_foldl_parseHeaderLine (L : List Str) (h0 : Headers) (q : Str) :
    ((L.foldl parseHeaderLine h0).get q) =
      match (L.filterMap parseLinePair).reverse.find?
          (fun e => lowerStr e.1 == lowerStr q) with
      | some e => some e.2
      | none => h0.get q := by
  induction L generalizing h0 with
  | nil => simp
  | cons l t ih =>
    rw [List.foldl_cons, ih, List.filterMap_cons]
    cases hp : parseLinePair l with
    | none => rw [parseHeaderLine_eq, hp]
    | some e =>
      rw [parseHeaderLine_eq, hp]
      simp only [List.reverse_cons, List.find?_append]
      cases hf : (t.filterMap parseLinePair).reverse.find?
          (fun e => lowerStr e.1 == lowerStr q) with
      | some x => simp [Option.or]
      | none =>
        simp only [Option.or, List.find?_cons, List.find?_nil]
        by_cases hk : lowerStr e.1 = lowerStr q
        · rw [beq_iff_eq.mpr hk]
          rw [Headers.get_set, if_pos hk, httpTrim_of_trimmed (parseLinePair_value_trimmed hp)]
        · rw [beq_eq_false_iff_ne.mpr hk]
          rw [Headers.get_set, if_neg hk]

/-! ## Claim C4 — decode pipeline -/

theorem splitOnC_nosep {sep : Char} : ∀ {a : Str}, (∀ c ∈ a, c ≠ sep) → splitOnC sep a = [a]
  | [], _ => rfl
  | c :: rest, h => by
    unfold splitOnC
    rw [if_neg (h c (by simp)), splitOnC_nosep (fun d hd => h d (List.mem_cons_of_mem c hd))]

theorem splitOnC_append {sep : Char} :
    ∀ {a : Str} (rest : Str), (∀ c ∈ a, c ≠ sep) →
      splitOnC sep (a ++ sep :: rest) = a :: splitOnC sep rest
  | [], rest, _ => by
    simp only [List.nil_append]
    conv_lhs => rw [splitOnC]
    rw [if_pos rfl]
  | c :: t, rest, h => by
    simp only [List.cons_append]
    conv_lhs => rw [splitOnC]
    rw [if_neg (h c (by simp)),
      splitOnC_append rest (fun d hd => h d (List.mem_cons_of_mem c hd))]

theorem splitOnC_ne_nil (sep : Char) : ∀ (s : Str), splitOnC sep s ≠ []
  | [] => by simp [splitOnC]
  | c :: rest => by
    unfold splitOnC
    split_ifs
    · simp
    · cases hs : splitOnC sep rest <;> simp

theorem splitOnC_joinSep_crlf :
    ∀ (ls : List Str), (∀ l ∈ ls, ∀ c ∈ l, c ≠ '\n') →
      splitOnC '\n' (joinSep crlf (ls ++ [crlf])) =
        ls.map (fun l => l ++ ['\r']) ++ [['\r'], []]
  | [], _ => by decide
  | a :: t, h => by
    have hstep : joinSep crlf ((a :: t) ++ [crlf]) =
        (a ++ crlf) ++ joinSep crlf (t ++ [crlf]) := by
      cases t <;> rfl
    rw [hstep]
    have hform : (a ++ crlf) ++ joinSep crlf (t ++ [crlf]) =
        (a ++ ['\r']) ++ '\n' :: joinSep crlf (t ++ [crlf]) := by
      rw [show (crlf : Str) = ['\r', '\n'] from rfl]
      simp
    rw [hform, splitOnC_append _ ?hpre]
    case hpre =>
      intro c hc
      rcases List.mem_append.mp hc with h1 | h1
      · exact h a (by simp) c h1
      · simp only [List.mem_singleton] at h1
        subst h1
        decide
    rw [splitOnC_joinSep_crlf t (fun l hl => h l (List.mem_cons_of_mem a hl))]
    simp

theorem joinSep_colon_head : ∀ {qs : List Str} {c : Char},
    (joinSep [':'] qs).head? = some c → c = ':' ∨ ∃ q ∈ qs, q.head? = some c
  | [], c, h => by simp [joinSep] at h
  | [x], c, h => Or.inr ⟨x, by simp, by simpa [joinSep] using h⟩
  | x :: y :: s, c, h => by
    have hform : joinSep [':'] (x :: y :: s) = x ++ ':' :: joinSep [':'] (y :: s) := by
      show x ++ [':'] ++ joinSep [':'] (y :: s) = _
      simp
    rw [hform, List.head?_append] at h
    cases hx : x.head? with
    | some d =>
      rw [hx] at h
      have hdc : some d = some c := h
      exact Or.inr ⟨x, by simp, by rw [hx, Option.some.inj hdc]⟩
    | none =>
      rw [hx] at h
      have hdc : some ':' = some c := h
      exact Or.inl (Option.some.inj hdc).symm

theorem joinSep_colon_getLast : ∀ {qs : List Str} {c : Char},
    (joinSep [':'] qs).getLast? = some c → c = ':' ∨ ∃ q ∈ qs, q.getLast? = some c
  | [], c, h => by simp [joinSep] at h
  | [x], c, h => Or.inr ⟨x, by simp, by simpa [joinSep] using h⟩
  | x :: y :: s, c, h => by
    have hform : joinSep [':'] (x :: y :: s) = x ++ ':' :: joinSep [':'] (y :: s) := by
      show x ++ [':'] ++ joinSep [':'] (y :: s) = _
      simp
    rw [hform, List.getLast?_append_of_ne_nil _ (by simp)] at h
    cases hJ : joinSep [':'] (y :: s) with
    | nil =>
      rw [hJ] at h
      have hdc : some ':' = some c := by simpa using h
      exact Or.inl (Option.some.inj hdc).symm
    | cons j js =>
      rw [hJ, List.getLast?_cons_cons, ← hJ] at h
      rcases joinSep_colon_getLast h with h1 | ⟨q, hq, hq2⟩
      · exact Or.inl h1
      · exact Or.inr ⟨q, List.mem_cons_of_mem x hq, hq2⟩

/-- The join of trimmed pieces with colons is itself trim-fixed: its first
and last characters are either colons or ends of trimmed pieces. -/
theorem trim_joinSep_colon {qs : List Str} (h : ∀ q ∈ qs, trim q = q) :
    trim (joinSep [':'] qs) = joinSep [':'] qs := by
  apply trim_eq_self
  · intro c hc
    rcases joinSep_colon_head hc with rfl | ⟨q, hq, hq2⟩
    · decide
    · exact trim_head_not_ws (s := q) (by rw [h q hq]; exact hq2)
  · intro c hc
    rcases joinSep_colon_getLast hc with rfl | ⟨q, hq, hq2⟩
    · decide
    · exact trim_getLast_not_ws (s := q) (by rw [h q hq]; exact hq2)

/-- A colon-normal value is JavaScript-trim-fixed: it is a join of trimmed
pieces. -/
theorem colonNormal_trimmed {v : Str} (hcn : colonNormal v) : trim v = v := by
  unfold colonNormal at hcn
  rw [← hcn]
  apply trim_joinSep_colon
  intro q hq
  obtain ⟨p2, hp2, hq2⟩ := List.mem_map.mp hq
  rw [← hq2]
  exact trim_idem p2

/-! ## Trimming a serialized header line -/

theorem trim_render_cr {e : Str × Str} (hk : keyWF e.1) (hv1 : trim e.2 = e.2) :
    trim (renderHeaderLine e ++ ['\r']) =
      if e.2 = [] then upperStr e.1 ++ [':'] else upperStr e.1 ++ ':' :: ' ' :: e.2 := by
  have hKne : upperStr e.1 ≠ [] := by
    intro hh
    exact keyWF_ne_nil hk (by simpa [upperStr] using hh)
  have hKws : ∀ c ∈ upperStr e.1, wsChar c = false :=
    upperStr_no_ws (fun c hc => (keyWF_chars hk c hc).1)
  have hdropK : ∀ (x : Str), (upperStr e.1 ++ x).dropWhile wsChar = upperStr e.1 ++ x := by
    intro x
    apply dropWhile_eq_self_of_head
    intro c hc
    rw [List.head?_append] at hc
    cases hK : (upperStr e.1).head? with
    | none => exact absurd (List.head?_eq_none_iff.mp hK) hKne
    | some d =>
      rw [hK] at hc
      have hdc : some d = some c := hc
      rw [← Option.some.inj hdc]
      exact hKws d (List.mem_of_mem_head? hK)
  by_cases hv2 : e.2 = []
  · rw [if_pos hv2]
    have hline : renderHeaderLine e ++ ['\r'] =
        ((upperStr e.1 ++ [':']) ++ [' ']) ++ ['\r'] := by
      unfold renderHeaderLine
      rw [hv2, show (str ": " : Str) = [':', ' '] from rfl]
      simp
    rw [hline, trim_append_ws (by decide), trim_append_ws (by decide),
      trim_append_not_ws (by decide)]
    have := hdropK []
    simp only [List.append_nil] at this
    rw [this]
  · rw [if_neg hv2]
    rcases List.eq_nil_or_concat e.2 with h | ⟨v', c, hvc⟩
    · exact absurd h hv2
    · rw [List.concat_eq_append] at hvc
      have hcws : wsChar c = false := by
        apply trim_getLast_not_ws (s := e.2)
        rw [hv1, hvc, List.getLast?_append_of_ne_nil _ (by simp)]
        rfl
      have hline : renderHeaderLine e ++ ['\r'] =
          ((upperStr e.1 ++ ([':', ' '] ++ v')) ++ [c]) ++ ['\r'] := by
        unfold renderHeaderLine
        rw [show (str ": " : Str) = [':', ' '] from rfl, hvc]
        simp
      rw [hline, trim_append_ws (by decide), trim_append_not_ws hcws, hdropK]
      rw [hvc]
      simp

/-! ## The decode pipeline applied to serialized output -/

theorem decodedLines_toWire (p : Payload) (hwf : HeadersWF p.headers)
    (htr : ∀ e ∈ p.headers.entries, trim e.2 = e.2) :
    decodedLines (Payload.toWire p) =
      (sortByColl (Headers.sorted p.headers)).map
        (fun e => if e.2 = [] then upperStr e.1 ++ [':']
          else upperStr e.1 ++ ':' :: ' ' :: e.2) := by
  have hperm : (sortByColl (Headers.sorted p.headers)).Perm p.headers.entries :=
    (sortByColl_perm _).trans (sortByKey_perm _)
  have hmemE : ∀ e ∈ sortByColl (Headers.sorted p.headers), keyWF e.1 ∧ valWF e.2 :=
    fun e he => hwf.2 e (hperm.mem_iff.mp he)
  have hmemT : ∀ e ∈ sortByColl (Headers.sorted p.headers), trim e.2 = e.2 :=
    fun e he => htr e (hperm.mem_iff.mp he)
  unfold decodedLines Payload.toWire
  rw [show firstLineFor p.method ::
        ((sortByColl (Headers.sorted p.headers)).map renderHeaderLine ++ [crlf]) =
      (firstLineFor p.method ::
        (sortByColl (Headers.sorted p.headers)).map renderHeaderLine) ++ [crlf]
    from rfl]
  rw [splitOnC_joinSep_crlf _ ?hnf]
  case hnf =>
    intro l hl c hc
    rcases List.mem_cons.mp hl with rfl | hl
    · have hfl : ∀ d ∈ firstLineFor p.method, d ≠ '\n' := by
        cases p.method <;> decide
      exact hfl c hc
    · obtain ⟨e, he, rfl⟩ := List.mem_map.mp hl
      obtain ⟨hkw, hvw⟩ := hmemE e he
      unfold renderHeaderLine at hc
      rcases List.mem_append.mp hc with h1 | h1
      · rcases List.mem_append.mp h1 with h2 | h2
        · intro hcn
          subst hcn
          have hws := upperStr_no_ws (fun d hd => (keyWF_chars hkw d hd).1) '\n' h2
          exact absurd hws (by decide)
        · intro hcn
          subst hcn
          revert h2
          decide
      · exact (valWF_no_crlf hvw c h1).1
  simp only [List.map_cons, List.cons_append, List.drop_succ_cons, List.drop_zero,
    List.map_append, List.map_map]
  rw [show trim (['\r'] : Str) = [] from by decide, trim_nil]
  simp only [List.map_nil, Function.comp_def]
  rw [List.map_congr_left (fun e he =>
    (trim_render_cr (hmemE e he).1 (hmemT e he) :
      trim (renderHeaderLine e ++ ['\r']) =
        if e.2 = [] then upperStr e.1 ++ [':'] else upperStr e.1 ++ ':' :: ' ' :: e.2))]
  rw [List.filter_append]
  rw [show List.filter (fun l => !l.isEmpty) [([] : Str), []] = [] from by decide,
    List.append_nil]
  apply List.filter_eq_self.mpr
  intro x hx
  obtain ⟨e, he, rfl⟩ := List.mem_map.mp hx
  have hKne : upperStr e.1 ≠ [] := fun hh =>
    keyWF_ne_nil (hmemE e he).1 (by simpa [upperStr] using hh)
  by_cases hv2 : e.2 = [] <;> simp [hv2, List.isEmpty_iff, hKne]

/-! ## Parsing a serialized header line -/

theorem parseLinePair_processed {k v : Str} (hk : keyWF k) (hv1 : trim v = v)
    (hcn : colonNormal v) :
    parseLinePair (if v = [] then upperStr k ++ [':'] else upperStr k ++ ':' :: ' ' :: v) =
      some (upperStr k, v) := by
  have hKnc : ∀ c ∈ upperStr k, c ≠ ':' :=
    upperStr_no_colon (fun c hc => (keyWF_chars hk c hc).2)
  have hKne : upperStr k ≠ [] := fun hh => keyWF_ne_nil hk (by simpa [upperStr] using hh)
  have hKtrim : trim (upperStr k) = upperStr k :=
    trim_eq_self_of_no_ws (upperStr_no_ws (fun c hc => (keyWF_chars hk c hc).1))
  have hKidem : upperStr (upperStr k) = upperStr k := upperStr_upperStr k
  by_cases hv2 : v = []
  · subst hv2
    rw [if_pos rfl]
    unfold parseLinePair
    rw [show upperStr k ++ [':'] = upperStr k ++ ':' :: ([] : Str) from rfl,
      splitOnC_append _ hKnc,
      show splitOnC ':' ([] : Str) = [[]] from rfl]
    simp only [List.map_cons, List.map_nil, hKtrim, trim_nil]
    rw [if_pos ⟨hKne, by simp⟩, hKidem]
    rfl
  · rw [if_neg hv2]
    unfold parseLinePair
    rw [splitOnC_append _ hKnc]
    obtain ⟨r, rs, hsplit⟩ : ∃ r rs, splitOnC ':' v = r :: rs := by
      cases hs : splitOnC ':' v with
      | nil => exact absurd hs (splitOnC_ne_nil ':' v)
      | cons r rs => exact ⟨r, rs, rfl⟩
    conv_lhs => rw [splitOnC]
    rw [if_neg (by decide), hsplit]
    simp only [List.map_cons, hKtrim, trim_cons_ws (by decide : wsChar ' ' = true)]
    rw [if_pos ⟨hKne, by simp⟩, hKidem]
    have hval : trim (joinSep [':'] (trim r :: List.map trim rs)) = v := by
      have hjoin : trim r :: List.map trim rs = List.map trim (splitOnC ':' v) := by
        rw [hsplit, List.map_cons]
      rw [hjoin]
      unfold colonNormal at hcn
      rw [hcn, hv1]
    rw [hval]

theorem filterMap_eq_map_of_some {α β : Type} {f : α → Option β} {g : α → β} :
    ∀ {l : List α}, (∀ x ∈ l, f x = some (g x)) → l.filterMap f = l.map g
  | [], _ => rfl
  | a :: t, hyp => by
    rw [List.filterMap_cons, hyp a (by simp), List.map_cons,
      filterMap_eq_map_of_some (fun x hx => hyp x (List.mem_cons_of_mem a hx))]

theorem find?_map_general {α β : Type} (f : α → β) (p : β → Bool) :
    ∀ (l : List α), (l.map f).find? p = ((l.find? (fun x => p (f x))).map f)
  | [] => rfl
  | a :: t => by
    simp only [List.map_cons, List.find?_cons]
    cases hp : p (f a)
    · exact find?_map_general f p t
    · rfl

/-! ## Claim C1 — header round-trip -/

/-- C1 counterexample: the round-trip is not the identity for every header
mapping: a value with whitespace next to an interior colon (`a : b`) comes
back as `a:b`, because decode splits on every colon and trims every piece. -/
theorem c1_header_roundtrip_counterexample :
    (decodeHeaders (Payload.toWire (mkNotification.setHeader (str "K") (str "a : b")))).get
        (str "k") ≠
      (mkNotification.setHeader (str "K") (str "a : b")).headers.get (str "k") := by
  decide

/-- C1 (amended): for every message whose header mapping is well-formed
(token names, trimmed line-break-free values — what the `Headers` container
enforces) and whose values are *colon-normal* (no whitespace adjacent to an
interior colon), decoding the text produced by encoding the message yields a
header set equal to the original under case-insensitive key comparison.  For
values that are not colon-normal the round-trip strips the whitespace around
interior colons (see the counterexample). -/
theorem c1_header_roundtrip_amended (p : Payload) (hwf : HeadersWF p.headers)
    (hcn : ∀ e ∈ p.headers.entries, colonNormal e.2) (q : Str) :
    (decodeHeaders (Payload.toWire p)).get q = p.headers.get q := by
  have htr : ∀ e ∈ p.headers.entries, trim e.2 = e.2 := fun e he =>
    colonNormal_trimmed (hcn e he)
  rw [decodeHeaders_eq_foldl, get_foldl_parseHeaderLine, decodedLines_toWire p hwf htr]
  have hperm : (sortByColl (Headers.sorted p.headers)).Perm p.headers.entries :=
    (sortByColl_perm _).trans (sortByKey_perm _)
  have hmemE : ∀ e ∈ sortByColl (Headers.sorted p.headers), keyWF e.1 ∧ valWF e.2 :=
    fun e he => hwf.2 e (hperm.mem_iff.mp he)
  have htrE : ∀ e ∈ sortByColl (Headers.sorted p.headers), trim e.2 = e.2 :=
    fun e he => htr e (hperm.mem_iff.mp he)
  have hcnE : ∀ e ∈ sortByColl (Headers.sorted p.headers), colonNormal e.2 :=
    fun e he => hcn e (hperm.mem_iff.mp he)
  rw [List.filterMap_map]
  simp only [Function.comp_def]
  rw [filterMap_eq_map_of_some (fun e he =>
    parseLinePair_processed (hmemE e he).1 (htrE e he) (hcnE e he))]
  rw [← List.map_reverse, find?_map_general]
  rw [find?_congr_mem (fun e he => by
    show (lowerStr (upperStr e.1) == lowerStr q) = (e.1 == lowerStr q)
    rw [lowerStr_upperStr
      (((hmemE e ((List.reverse_perm _).mem_iff.mp he)).1).2)])]
  rw [find?_key_eq_of_perm
    ((hperm.symm.trans (List.reverse_perm _).symm :
      p.headers.entries.Perm (sortByColl (Headers.sorted p.headers)).reverse)) hwf.1]
  unfold Headers.get
  cases hf : p.headers.entries.find? (fun e : Str × Str => e.1 == lowerStr q) with
  | none => rfl
  | some e => rfl

/-- C1 witness: the amended round-trip on a concrete alive notification. -/
theorem c1_header_roundtrip_amended_witness :
    (decodeHeaders (Payload.toWire
        ((mkNotification.setHeader (str "NT") (str "urn:test:1")).setHeader (str "NTS")
          (str "ssdp:alive")))).get (str "nt") =
      ((mkNotification.setHeader (str "NT") (str "urn:test:1")).setHeader (str "NTS")
        (str "ssdp:alive")).headers.get (str "nt") :=
  c1_header_roundtrip_amended
    ((mkNotification.setHeader (str "NT") (str "urn:test:1")).setHeader (str "NTS")
      (str "ssdp:alive"))
    (by unfold HeadersWF keyWF valWF; decide)
    (by unfold colonNormal; decide) (str "nt")

end SSDPModel
